import Mathlib

/-!
# Verification of the gunk schema-to-descriptor translator

A shallow embedding of `generate/generate.go`: the translation of gunk
packages (typed Go-like ASTs) into protobuf `FileDescriptorProto`s, the
topological sort of descriptor files, and the construction of
`CodeGeneratorRequest`s.  Definitions follow the Go source; helpers whose
source is not part of the repository snapshot are modelled from the
specification and marked as such.
-/

namespace Gunk

/-! ## Protobuf descriptor enums

Numeric values of `descriptorpb.FieldDescriptorProto_Type` and `_Label`.
The Go code uses the zero value `0` as the "unsupported type" sentinel. -/

def TYPE_DOUBLE : Nat := 1
def TYPE_FLOAT : Nat := 2
def TYPE_INT64 : Nat := 3
def TYPE_UINT64 : Nat := 4
def TYPE_INT32 : Nat := 5
def TYPE_BOOL : Nat := 8
def TYPE_STRING : Nat := 9
def TYPE_MESSAGE : Nat := 11
def TYPE_BYTES : Nat := 12
def TYPE_UINT32 : Nat := 13
def TYPE_ENUM : Nat := 14

def LABEL_OPTIONAL : Nat := 1
def LABEL_REPEATED : Nat := 3

/-! ## Option records

Proto2 optional fields are pointers in Go; `none` stands for an unset
(nil) field.  Extension payloads (OpenAPI structures) are kept as the raw
tag value. -/

/-- The decoded value of a gunk option tag (`loader.GunkTag`): a constant
bool/int/string, or a composite literal of string key/value entries. -/
inductive TagValue where
  | boolVal (b : Bool)
  | intVal (i : Int)
  | strVal (s : String)
  | exprVal (kvs : List (String × String))
  | otherVal
deriving Repr, DecidableEq

/-- A gunk option tag: the fully qualified type name used for dispatch,
plus its decoded value. -/
structure Tag where
  typeName : String
  value : TagValue
deriving Repr, DecidableEq

/-- constant.BoolVal on the tag value. -/
def constBoolVal : TagValue → Bool
  | .boolVal b => b
  | _ => false

/-- constant.StringVal on the tag value. -/
def constStringVal : TagValue → String
  | .strVal s => s
  | _ => ""

/-- Modelled from the spec: protoEnumValue converts an enum-typed constant
tag value to its numeric protobuf value. -/
def protoEnumValue : TagValue → Int
  | .intVal i => i
  | _ => 0

structure FileOptions where
  optimizeFor : Option Int := none
  deprecated : Option Bool := none
  javaPackage : Option String := none
  javaOuterClassname : Option String := none
  javaMultipleFiles : Option Bool := none
  javaStringCheckUtf8 : Option Bool := none
  javaGenericServices : Option Bool := none
  swiftPfx : Option String := none
  csharpNamespace : Option String := none
  objcClassPfx : Option String := none
  phpNamespace : Option String := none
  phpClassPfx : Option String := none
  phpGenericServices : Option Bool := none
  goPackage : Option String := none
  openapiSwagger : Option TagValue := none
deriving Repr, DecidableEq

structure MessageOptions where
  messageSetWireFormat : Option Bool := none
  noStandardDescriptorAccessor : Option Bool := none
  deprecated : Option Bool := none
  mapEntry : Option Bool := none
  openapiSchema : Option TagValue := none
deriving Repr, DecidableEq

structure FieldOptions where
  packed : Option Bool := none
  lazy : Option Bool := none
  deprecated : Option Bool := none
  ctype : Option Int := none
  jstype : Option Int := none
  openapiField : Option String := none
deriving Repr, DecidableEq

structure ServiceOptions where
  deprecated : Option Bool := none
deriving Repr, DecidableEq

/-- One of the five `annotations.HttpRule` pattern variants. -/
inductive HttpPattern where
  | get (path : String)
  | post (path : String)
  | delete (path : String)
  | put (path : String)
  | patch (path : String)
deriving Repr, DecidableEq

/-- An entry of `HttpRule.AdditionalBindings`.  The program never nests
bindings inside bindings, so the additional bindings are flattened. -/
structure HttpBinding where
  body : String
  pattern : HttpPattern
deriving Repr, DecidableEq

/-- `annotations.HttpRule` as built by methodOptions. -/
structure HttpRule where
  body : String
  pattern : HttpPattern
  additionalBindings : List HttpBinding := []
deriving Repr, DecidableEq

structure MethodOptions where
  deprecated : Option Bool := none
  idempotencyLevel : Option Int := none
  httpRule : Option HttpRule := none
  openapiOperation : Option TagValue := none
deriving Repr, DecidableEq

structure EnumOptions where
  allowAlias : Option Bool := none
  deprecated : Option Bool := none
deriving Repr, DecidableEq

structure EnumValueOptions where
  deprecated : Option Bool := none
deriving Repr, DecidableEq

/-! ## Defaulting pass

`reflectutil.SetDefaults` is not part of this snapshot. -/

/-- Modelled from the spec: the generic defaulting pass fills every unset
scalar option field with its zero value; extension payloads and the HTTP
rule are not ordinary descriptor fields and are left untouched. -/
def setDefaultsFile (o : FileOptions) : FileOptions :=
  { o with
    optimizeFor := some (o.optimizeFor.getD 0)
    deprecated := some (o.deprecated.getD false)
    javaPackage := some (o.javaPackage.getD "")
    javaOuterClassname := some (o.javaOuterClassname.getD "")
    javaMultipleFiles := some (o.javaMultipleFiles.getD false)
    javaStringCheckUtf8 := some (o.javaStringCheckUtf8.getD false)
    javaGenericServices := some (o.javaGenericServices.getD false)
    swiftPfx := some (o.swiftPfx.getD "")
    csharpNamespace := some (o.csharpNamespace.getD "")
    objcClassPfx := some (o.objcClassPfx.getD "")
    phpNamespace := some (o.phpNamespace.getD "")
    phpClassPfx := some (o.phpClassPfx.getD "")
    phpGenericServices := some (o.phpGenericServices.getD false)
    goPackage := some (o.goPackage.getD "") }

/-- Modelled from the spec: defaulting pass for message options. -/
def setDefaultsMessage (o : MessageOptions) : MessageOptions :=
  { o with
    messageSetWireFormat := some (o.messageSetWireFormat.getD false)
    noStandardDescriptorAccessor := some (o.noStandardDescriptorAccessor.getD false)
    deprecated := some (o.deprecated.getD false)
    mapEntry := some (o.mapEntry.getD false) }

/-- Modelled from the spec: defaulting pass for field options. -/
def setDefaultsField (o : FieldOptions) : FieldOptions :=
  { o with
    packed := some (o.packed.getD false)
    lazy := some (o.lazy.getD false)
    deprecated := some (o.deprecated.getD false)
    ctype := some (o.ctype.getD 0)
    jstype := some (o.jstype.getD 0) }

/-- Modelled from the spec: defaulting pass for service options. -/
def setDefaultsService (o : ServiceOptions) : ServiceOptions :=
  { o with deprecated := some (o.deprecated.getD false) }

/-- Modelled from the spec: defaulting pass for method options. -/
def setDefaultsMethod (o : MethodOptions) : MethodOptions :=
  { o with
    deprecated := some (o.deprecated.getD false)
    idempotencyLevel := some (o.idempotencyLevel.getD 0) }

/-- Modelled from the spec: defaulting pass for enum options. -/
def setDefaultsEnum (o : EnumOptions) : EnumOptions :=
  { o with
    allowAlias := some (o.allowAlias.getD false)
    deprecated := some (o.deprecated.getD false) }

/-- Modelled from the spec: defaulting pass for enum value options. -/
def setDefaultsEnumValue (o : EnumValueOptions) : EnumValueOptions :=
  { o with deprecated := some (o.deprecated.getD false) }

/-! ## Descriptor records -/

structure SourceLocation where
  path : List Int
  leadingComments : String
  span : List Int
deriving Repr, DecidableEq

structure FieldDescriptorProto where
  name : String
  number : Int
  typeName : Option String
  typ : Nat
  label : Nat
  jsonName : Option String
  options : Option FieldOptions
deriving Repr, DecidableEq

/-- A nested message descriptor.  In this program the only nested messages
are synthesized map entries, which never nest further, so the recursive
`NestedType` list of `descriptorpb.DescriptorProto` is flattened away. -/
structure NestedDescriptorProto where
  name : String
  options : Option MessageOptions
  field : List FieldDescriptorProto
deriving Repr, DecidableEq

/-- A top-level message descriptor.  `nestedType` carries `Option`s because
the Go slice holds pointers and `convertMessage` can append a nil pointer
(when `convertMap` hits an unsupported key or value type). -/
structure DescriptorProto where
  name : String
  options : Option MessageOptions
  field : List FieldDescriptorProto
  nestedType : List (Option NestedDescriptorProto)
deriving Repr, DecidableEq

structure MethodDescriptorProto where
  name : String
  inputType : Option String
  outputType : Option String
  clientStreaming : Option Bool
  serverStreaming : Option Bool
  options : Option MethodOptions
deriving Repr, DecidableEq

structure ServiceDescriptorProto where
  name : String
  options : Option ServiceOptions
  method : List MethodDescriptorProto
deriving Repr, DecidableEq

structure EnumValueDescriptorProto where
  name : String
  number : Int
  options : Option EnumValueOptions
deriving Repr, DecidableEq

structure EnumDescriptorProto where
  name : String
  options : Option EnumOptions
  value : List EnumValueDescriptorProto
deriving Repr, DecidableEq

structure FileDescriptorProto where
  protoSyntax : String
  name : String
  pkg : String
  options : FileOptions
  dependency : List String
  messageType : List DescriptorProto
  service : List ServiceDescriptorProto
  enumType : List EnumDescriptorProto
  sourceCodeInfo : Option (List SourceLocation)
deriving Repr, DecidableEq

structure FileDescriptorSet where
  file : List FileDescriptorProto
deriving Repr, DecidableEq

structure CodeGeneratorRequest where
  fileToGenerate : List String
  protoFile : List FileDescriptorProto
  parameter : Option String
deriving Repr, DecidableEq

/-! ## Small helpers -/

/-- Modelled from the spec: the synthetic descriptor file of a package is
named `<import-path>/all.proto`. -/
def unifiedProtoFile (pkgPath : String) : String := pkgPath ++ "/all.proto"

/-- Modelled from the spec: protoStringOrNil returns nil for the empty
string (no type-name) and the string itself otherwise. -/
def protoStringOrNil (s : String) : Option String :=
  if s = "" then none else some s

/-- `int32(i)`: two's-complement truncation of an int64 value to 32 bits. -/
def toInt32 (i : Int) : Int := (i + 2 ^ 31) % 2 ^ 32 - 2 ^ 31

/-! ## Topological sort of descriptor files

`topologicalSort` repeatedly scans the input for the first file whose
dependencies are all already placed and appends it; if a whole pass adds
nothing the Go code panics ("dependency cycle?"), modelled as `none`. -/

/-- The body of the inner `_fileLoop` test: the file is not yet part of the
result and all its dependencies are. -/
def topoReady (previous : List String) (f : FileDescriptorProto) : Bool :=
  !(previous.contains f.name) && f.dependency.all (fun d => previous.contains d)

/-- One pass of the inner loop: the first file of the input ready to be
placed, if any. -/
def topoStep (previous : List String) (files : List FileDescriptorProto) :
    Option FileDescriptorProto :=
  files.find? (topoReady previous)

/-- The outer `_addLoop`.  Each iteration grows `result` by one element,
so fuel `files.length` suffices and the fuel-exhausted case is
unreachable from `topologicalSort`; `none` is the cycle panic. -/
def topoLoop (files : List FileDescriptorProto) :
    Nat → List String → List FileDescriptorProto → Option (List FileDescriptorProto)
  | 0, _, result =>
    if result.length < files.length then none else some result
  | fuel + 1, previous, result =>
    if result.length < files.length then
      match topoStep previous files with
      | none => none
      | some f => topoLoop files fuel (f.name :: previous) (result ++ [f])
    else some result

def topologicalSort (files : List FileDescriptorProto) :
    Option (List FileDescriptorProto) :=
  topoLoop files files.length [] []

/-- requestForPkg builds the CodeGeneratorRequest for one package.  The Go
code ranges over the `allProto` map, whose iteration order is unspecified;
the enumeration order of the table is therefore an explicit argument. -/
def requestForPkg (pkgPath : String) (files : List FileDescriptorProto) :
    Option CodeGeneratorRequest :=
  match topologicalSort files with
  | none => none
  | some sorted =>
    some { fileToGenerate := [unifiedProtoFile pkgPath], protoFile := sorted,
           parameter := none }

/-- FileDescriptorSet for a single-package query: the ProtoFile list of the
request built for that package. -/
def fileDescriptorSet (pkgPath : String) (files : List FileDescriptorProto) :
    Option FileDescriptorSet :=
  (requestForPkg pkgPath files).map fun req => { file := req.protoFile }

/-! ## Go types

The fragment of `go/types` the converter inspects. -/

inductive BasicKind where
  | bString | bInt | bInt32 | bUint | bUint32 | bInt64 | bUint64
  | bFloat32 | bFloat64 | bBool | bByte | bOther
deriving Repr, DecidableEq

/-- `typ.Underlying()` of a named type, to the extent convertType looks. -/
inductive Underlying where
  | basicU (k : BasicKind)
  | structU
  | otherU
deriving Repr, DecidableEq

/-- A `*types.Named`: its `String()` rendering, object name, owning
package path and underlying type. -/
structure NamedType where
  fullString : String
  objName : String
  pkgPath : String
  underlying : Underlying
deriving Repr, DecidableEq

inductive GoType where
  | basic (k : BasicKind)
  | chanOf (elem : GoType)
  | named (n : NamedType)
  | sliceOf (elem : GoType)
  | mapOf (key : GoType) (value : GoType)
  | otherType
deriving Repr, DecidableEq

/-! ## Loader model

The typed AST the loader delivers, restricted to what the translator
reads.  Gunk option tags are attached to the node they annotate (the Go
code looks them up in `pkg.GunkTags[node]`). -/

/-- Modelled from the spec: a struct tag `pb:"N" json:"..."`, already
parsed; the `pb` entry carries the wire number when present. -/
structure StructTag where
  pb : Option Int := none
  json : Option String := none
deriving Repr, DecidableEq

/-- Modelled from the spec: protoNumber reads the wire number from the
`pb:"N"` struct tag; a missing pb entry is an error. -/
def protoNumber (t : StructTag) : Except String Int :=
  match t.pb with
  | some n => .ok n
  | none => .error "no pb tag"

/-- Modelled from the spec: the `json:"..."` struct-tag form, when
present, becomes the field's JsonName. -/
def jsonName (t : StructTag) : Option String := t.json

/-- A struct field of a message declaration. -/
structure StructField where
  names : List String
  doc : String := ""
  typ : GoType
  tag : Option StructTag := none
  tags : List Tag := []
deriving Repr, DecidableEq

/-- An interface method: its names, doc, option tags, and the parameter
and result tuples of its signature. -/
structure IMethod where
  names : List String
  doc : String := ""
  tags : List Tag := []
  params : List GoType := []
  results : List GoType := []
deriving Repr, DecidableEq

/-- A `*ast.ValueSpec` of a CONST declaration.  `typeId` stands for the
identity of `TypesInfo.TypeOf(name)` (Go compares type pointers);
`value` is the constant's value as int64. -/
structure ValueSpec where
  names : List String
  doc : String := ""
  tags : List Tag := []
  typeId : Nat
  value : Int := 0
deriving Repr, DecidableEq

/-- The type expression of a TYPE declaration: struct, interface, a named
basic (ident, with the identity of the enum type), or anything else. -/
inductive TypeSpecType where
  | structType (fields : List StructField)
  | interfaceType (methods : List IMethod)
  | identType (enumId : Nat)
  | otherType
deriving Repr, DecidableEq

structure TypeSpec where
  name : String
  doc : String := ""
  tags : List Tag := []
  ttype : TypeSpecType
deriving Repr, DecidableEq

/-- A file-level import. `underscore` marks a `_` import. -/
structure ImportSpec where
  underscore : Bool := false
  path : String
deriving Repr, DecidableEq

/-- A top-level declaration (`*ast.GenDecl` by token, other decls are
invalid). -/
inductive Decl where
  | typeDecl (specs : List TypeSpec)
  | constDecl (specs : List ValueSpec)
  | importDecl
  | otherDecl
deriving Repr, DecidableEq

/-- A gunk source file: package doc, file-level option tags, declarations
and imports. -/
structure GunkFile where
  doc : String := ""
  fileTags : List Tag := []
  decls : List Decl := []
  imports : List ImportSpec := []
deriving Repr, DecidableEq

/-- `loader.GunkPackage`, restricted to the fields the translator reads.
`gunkNames` and `astFiles` are the parallel file-name/AST lists. -/
structure GunkPackage where
  pkgPath : String
  name : String := ""
  protoName : String := ""
  dir : String := ""
  gunkNames : List String := []
  astFiles : List GunkFile := []
deriving Repr, DecidableEq

/-! ## Generator state -/

/-- Association-list lookup, standing for a Go map read. -/
def lookupA {α : Type} (l : List (String × α)) (k : String) : Option α :=
  (l.find? (fun p => p.1 == k)).map (fun p => p.2)

/-- Association-list insert/update, standing for a Go map write. -/
def insertA {α : Type} : List (String × α) → String → α → List (String × α)
  | [], k, v => [(k, v)]
  | (k', v') :: rest, k, v =>
    if k' = k then (k, v) :: rest else (k', v') :: insertA rest k v

/-- The mutable `Generator` state.  `gfileDecls` is the declaration list of
the file under translation (`g.gfile`), which convertEnum scans for
constants; `pfile` is the descriptor file being built. -/
structure Generator where
  curPkg : GunkPackage
  gfileDecls : List Decl := []
  pfile : FileDescriptorProto
  usedImports : List String := []
  gunkPkgs : List (String × GunkPackage) := []
  allProto : List (String × FileDescriptorProto) := []
  messageIndex : Int := 0
  serviceIndex : Int := 0
  enumIndex : Int := 0
deriving Repr, DecidableEq

/-- An empty descriptor file, the zero value of the `pfile` pointer. -/
def emptyPFile : FileDescriptorProto :=
  { protoSyntax := "", name := "", pkg := "", options := {}, dependency := [],
    messageType := [], service := [], enumType := [], sourceCodeInfo := none }

/-- addProtoDep appends a proto import to the current descriptor file
unless it is already present. -/
def addProtoDep (pfile : FileDescriptorProto) (protoPath : String) :
    FileDescriptorProto :=
  if pfile.dependency.contains protoPath then pfile
  else { pfile with dependency := pfile.dependency ++ [protoPath] }

/-- addProtoDep acting on the generator, as the Go method does. -/
def addProtoDepG (g : Generator) (protoPath : String) : Generator :=
  { g with pfile := addProtoDep g.pfile protoPath }

/-! ## Doc comments -/

/-- Modelled from the spec: the source-code-info path tags (descriptor
field numbers): package doc, message, message field, service, service
method, enum and enum value. -/
def packagePath : Int := 2
def messagePath : Int := 4
def enumPath : Int := 5
def servicePath : Int := 6
def messageFieldPath : Int := 2
def serviceMethodPath : Int := 2
def enumValuePath : Int := 2

/-- The comment normalization of addDoc: re-prepend one space to every
line, then strip trailing spaces and newlines. -/
def docText (text : String) : String :=
  let lines := text.splitOn "\n"
  let newText := " " ++ String.intercalate "\n " lines
  String.mk ((newText.toList.reverse.dropWhile
    (fun c => c == ' ' || c == '\n')).reverse)

/-- addDoc records a leading comment at the given path, with the dummy
span `[1,2,3]`; empty text records nothing. -/
def addDoc (g : Generator) (text : String) (path : List Int) : Generator :=
  if text = "" then g
  else
    { g with pfile := { g.pfile with
        sourceCodeInfo := some ((g.pfile.sourceCodeInfo.getD []) ++
          [{ path := path, leadingComments := docText text, span := [1, 2, 3] }]) } }

/-! ## Options readers -/

/-- File options, dispatched on the tag's fully qualified type name.
The ruby.Package and php.MetadataNamespace cases are recognized but set
nothing (commented out in the source). -/
def fileOptionsTags : FileOptions → List Tag → Except String FileOptions
  | fo, [] => .ok fo
  | fo, tag :: rest =>
    let s := tag.typeName
    if s = "github.com/gunk/opt/file.OptimizeFor" then
      fileOptionsTags { fo with optimizeFor := some (protoEnumValue tag.value) } rest
    else if s = "github.com/gunk/opt/file.Deprecated" then
      fileOptionsTags { fo with deprecated := some (constBoolVal tag.value) } rest
    else if s = "github.com/gunk/opt/file/java.Package" then
      fileOptionsTags { fo with javaPackage := some (constStringVal tag.value) } rest
    else if s = "github.com/gunk/opt/file/java.OuterClassname" then
      fileOptionsTags { fo with javaOuterClassname := some (constStringVal tag.value) } rest
    else if s = "github.com/gunk/opt/file/java.MultipleFiles" then
      fileOptionsTags { fo with javaMultipleFiles := some (constBoolVal tag.value) } rest
    else if s = "github.com/gunk/opt/file/java.StringCheckUtf8" then
      fileOptionsTags { fo with javaStringCheckUtf8 := some (constBoolVal tag.value) } rest
    else if s = "github.com/gunk/opt/file/java.GenericServices" then
      fileOptionsTags { fo with javaGenericServices := some (constBoolVal tag.value) } rest
    else if s = "github.com/gunk/opt/file/swift.Prefix" then
      fileOptionsTags { fo with swiftPfx := some (constStringVal tag.value) } rest
    else if s = "github.com/gunk/opt/file/ruby.Package" then
      fileOptionsTags fo rest
    else if s = "github.com/gunk/opt/file/csharp.Namespace" then
      fileOptionsTags { fo with csharpNamespace := some (constStringVal tag.value) } rest
    else if s = "github.com/gunk/opt/file/objc.ClassPrefix" then
      fileOptionsTags { fo with objcClassPfx := some (constStringVal tag.value) } rest
    else if s = "github.com/gunk/opt/file/php.Namespace" then
      fileOptionsTags { fo with phpNamespace := some (constStringVal tag.value) } rest
    else if s = "github.com/gunk/opt/file/php.ClassPrefix" then
      fileOptionsTags { fo with phpClassPfx := some (constStringVal tag.value) } rest
    else if s = "github.com/gunk/opt/file/php.MetadataNamespace" then
      fileOptionsTags fo rest
    else if s = "github.com/gunk/opt/file/php.GenericServices" then
      fileOptionsTags { fo with phpGenericServices := some (constBoolVal tag.value) } rest
    else if s = "github.com/gunk/opt/openapiv2.Swagger" then
      fileOptionsTags { fo with openapiSwagger := some tag.value } rest
    else .error ("gunk package option " ++ s ++ " not supported")

/-- fileOptions folds the file-level tags of every source file of the
package, then applies the defaulting pass. -/
def fileOptions (pkg : GunkPackage) : Except String FileOptions :=
  match pkg.astFiles.foldlM (fun fo f => fileOptionsTags fo f.fileTags) {} with
  | .error e => .error e
  | .ok fo => .ok (setDefaultsFile fo)

def messageOptionsTags : MessageOptions → List Tag → Except String MessageOptions
  | o, [] => .ok o
  | o, tag :: rest =>
    let s := tag.typeName
    if s = "github.com/gunk/opt/message.MessageSetWireFormat" then
      messageOptionsTags { o with messageSetWireFormat := some (constBoolVal tag.value) } rest
    else if s = "github.com/gunk/opt/message.NoStandardDescriptorAccessor" then
      messageOptionsTags { o with noStandardDescriptorAccessor := some (constBoolVal tag.value) } rest
    else if s = "github.com/gunk/opt/message.Deprecated" then
      messageOptionsTags { o with deprecated := some (constBoolVal tag.value) } rest
    else if s = "github.com/gunk/opt/openapiv2.Schema" then
      messageOptionsTags { o with openapiSchema := some tag.value } rest
    else .error ("gunk message option " ++ s ++ " not supported")

def messageOptions (tags : List Tag) : Except String MessageOptions :=
  match messageOptionsTags {} tags with
  | .error e => .error e
  | .ok o => .ok (setDefaultsMessage o)

/-- The field-level openapiv2.Schema tag: only its JSONSchema entry is
read. -/
def fieldSchemaEntries : FieldOptions → List (String × String) → FieldOptions
  | o, [] => o
  | o, (k, v) :: rest =>
    if k = "JSONSchema" then fieldSchemaEntries { o with openapiField := some v } rest
    else fieldSchemaEntries o rest

def fieldOptionsTags : FieldOptions → List Tag → Except String FieldOptions
  | o, [] => .ok o
  | o, tag :: rest =>
    let s := tag.typeName
    if s = "github.com/gunk/opt/field.Packed" then
      fieldOptionsTags { o with packed := some (constBoolVal tag.value) } rest
    else if s = "github.com/gunk/opt/field.Lazy" then
      fieldOptionsTags { o with lazy := some (constBoolVal tag.value) } rest
    else if s = "github.com/gunk/opt/field.Deprecated" then
      fieldOptionsTags { o with deprecated := some (constBoolVal tag.value) } rest
    else if s = "github.com/gunk/opt/field/cc.Type" then
      fieldOptionsTags { o with ctype := some (protoEnumValue tag.value) } rest
    else if s = "github.com/gunk/opt/field/js.Type" then
      fieldOptionsTags { o with jstype := some (protoEnumValue tag.value) } rest
    else if s = "github.com/gunk/opt/openapiv2.Schema" then
      match tag.value with
      | .exprVal kvs => fieldOptionsTags (fieldSchemaEntries o kvs) rest
      | _ => .error "openapiv2.Schema option is not a composite literal"
    else .error ("gunk field option " ++ s ++ " not supported")

def fieldOptions (field : StructField) : Except String FieldOptions :=
  match fieldOptionsTags {} field.tags with
  | .error e => .error e
  | .ok o => .ok (setDefaultsField o)

def serviceOptionsTags : ServiceOptions → List Tag → Except String ServiceOptions
  | o, [] => .ok o
  | o, tag :: rest =>
    let s := tag.typeName
    if s = "github.com/gunk/opt/service.Deprecated" then
      serviceOptionsTags { o with deprecated := some (constBoolVal tag.value) } rest
    else .error ("gunk service option " ++ s ++ " not supported")

def serviceOptions (tags : List Tag) : Except String ServiceOptions :=
  match serviceOptionsTags {} tags with
  | .error e => .error e
  | .ok o => .ok (setDefaultsService o)

/-- Decoding of a http.Match composite literal: `(Method, Path, Body)`
with `Method` defaulting to GET; an unknown key is an error. -/
def decodeMatch : List (String × String) → String → String → String →
    Except String (String × String × String)
  | [], m, p, b => .ok (m, p, b)
  | (k, v) :: rest, m, p, b =>
    if k = "Method" then decodeMatch rest v p b
    else if k = "Path" then decodeMatch rest m v b
    else if k = "Body" then decodeMatch rest m p v
    else .error ("unknown expression key " ++ k)

/-- The five-way verb dispatch on the decoded Method. -/
def httpPatternFor (method path : String) : Except String HttpPattern :=
  if method = "GET" then .ok (.get path)
  else if method = "POST" then .ok (.post path)
  else if method = "DELETE" then .ok (.delete path)
  else if method = "PUT" then .ok (.put path)
  else if method = "PATCH" then .ok (.patch path)
  else .error ("unknown method type: " ++ method)

/-- The tag loop of methodOptions.  `hr` is the local `httpRule` variable:
the first http.Match tag initializes it, later ones append to its
additional bindings. -/
def methodOptionsLoop (g : Generator) (o : MethodOptions) (hr : Option HttpRule) :
    List Tag → Except String (MethodOptions × Option HttpRule × Generator)
  | [] => .ok (o, hr, g)
  | tag :: rest =>
    let s := tag.typeName
    if s = "github.com/gunk/opt/method.Deprecated" then
      methodOptionsLoop g { o with deprecated := some (constBoolVal tag.value) } hr rest
    else if s = "github.com/gunk/opt/method.IdempotencyLevel" then
      methodOptionsLoop g { o with idempotencyLevel := some (protoEnumValue tag.value) } hr rest
    else if s = "github.com/gunk/opt/http.Match" then
      match tag.value with
      | .exprVal kvs =>
        match decodeMatch kvs "GET" "" "" with
        | .error e => .error e
        | .ok (m, p, b) =>
          match httpPatternFor m p with
          | .error e => .error e
          | .ok pat =>
            match hr with
            | none =>
              methodOptionsLoop g o
                (some { body := b, pattern := pat, additionalBindings := [] }) rest
            | some r =>
              methodOptionsLoop g o
                (some { r with additionalBindings :=
                  r.additionalBindings ++ [{ body := b, pattern := pat }] }) rest
      | _ => .error "http.Match option is not a composite literal"
    else if s = "github.com/gunk/opt/openapiv2.Operation" then
      methodOptionsLoop (addProtoDepG g "protoc-gen-openapiv2/options/annotations.proto")
        { o with openapiOperation := some tag.value } hr rest
    else .error ("gunk method option " ++ s ++ " not supported")

/-- methodOptions: run the tag loop, then attach the HTTP rule extension
(adding the google/api/annotations.proto dependency) and default. -/
def methodOptions (g : Generator) (tags : List Tag) :
    Except String (MethodOptions × Generator) :=
  match methodOptionsLoop g {} none tags with
  | .error e => .error e
  | .ok (o, hr, g) =>
    match hr with
    | none => .ok (setDefaultsMethod o, g)
    | some r =>
      .ok (setDefaultsMethod { o with httpRule := some r },
           addProtoDepG g "google/api/annotations.proto")

def enumOptionsTags : EnumOptions → List Tag → Except String EnumOptions
  | o, [] => .ok o
  | o, tag :: rest =>
    let s := tag.typeName
    if s = "github.com/gunk/opt/enum.AllowAlias" then
      enumOptionsTags { o with allowAlias := some (constBoolVal tag.value) } rest
    else if s = "github.com/gunk/opt/enum.Deprecated" then
      enumOptionsTags { o with deprecated := some (constBoolVal tag.value) } rest
    else .error ("gunk enum option " ++ s ++ " not supported")

def enumOptions (tags : List Tag) : Except String EnumOptions :=
  match enumOptionsTags {} tags with
  | .error e => .error e
  | .ok o => .ok (setDefaultsEnum o)

def enumValueOptionsTags : EnumValueOptions → List Tag → Except String EnumValueOptions
  | o, [] => .ok o
  | o, tag :: rest =>
    let s := tag.typeName
    if s = "github.com/gunk/opt/enumvalues.Deprecated" then
      enumValueOptionsTags { o with deprecated := some (constBoolVal tag.value) } rest
    else .error ("gunk enumvalue option " ++ s ++ " not supported")

def enumValueOptions (tags : List Tag) : Except String EnumValueOptions :=
  match enumValueOptionsTags {} tags with
  | .error e => .error e
  | .ok o => .ok (setDefaultsEnumValue o)

/-! ## Type conversion -/

/-- qualifiedTypeName formats `.<proto-package>.<TypeName>`; a nil package
means the current package, otherwise the package is looked up. -/
def qualifiedTypeName (g : Generator) (typeName : String) (pkg : Option String) :
    Except String String :=
  match pkg with
  | none => .ok ("." ++ g.curPkg.protoName ++ "." ++ typeName)
  | some path =>
    match lookupA g.gunkPkgs path with
    | none => .error ("failed to get package " ++ path ++ " to get qualified type name")
    | some gpkg => .ok ("." ++ gpkg.protoName ++ "." ++ typeName)

/-- convertType maps a Go type to `(field-type, label, type-name)`,
mutating the generator (used imports, injected proto deps).  A type it
cannot classify yields the sentinel `(0, 0, "")`. -/
def convertType (g : Generator) : GoType → Except String (Nat × Nat × String × Generator)
  | .chanOf elem => convertType g elem
  | .basic k =>
    match k with
    | .bString => .ok (TYPE_STRING, LABEL_OPTIONAL, "", g)
    | .bInt => .ok (TYPE_INT32, LABEL_OPTIONAL, "", g)
    | .bInt32 => .ok (TYPE_INT32, LABEL_OPTIONAL, "", g)
    | .bUint => .ok (TYPE_UINT32, LABEL_OPTIONAL, "", g)
    | .bUint32 => .ok (TYPE_UINT32, LABEL_OPTIONAL, "", g)
    | .bInt64 => .ok (TYPE_INT64, LABEL_OPTIONAL, "", g)
    | .bUint64 => .ok (TYPE_UINT64, LABEL_OPTIONAL, "", g)
    | .bFloat32 => .ok (TYPE_FLOAT, LABEL_OPTIONAL, "", g)
    | .bFloat64 => .ok (TYPE_DOUBLE, LABEL_OPTIONAL, "", g)
    | .bBool => .ok (TYPE_BOOL, LABEL_OPTIONAL, "", g)
    | _ => .ok (0, 0, "", g)
  | .named n =>
    if n.fullString = "time.Time" then
      .ok (TYPE_MESSAGE, LABEL_OPTIONAL, ".google.protobuf.Timestamp",
           addProtoDepG g "google/protobuf/timestamp.proto")
    else if n.fullString = "time.Duration" then
      .ok (TYPE_MESSAGE, LABEL_OPTIONAL, ".google.protobuf.Duration",
           addProtoDepG g "google/protobuf/duration.proto")
    else
      match qualifiedTypeName g n.objName (some n.pkgPath) with
      | .error e => .error e
      | .ok fullName =>
        let g := { g with usedImports := g.usedImports ++ [n.pkgPath] }
        match n.underlying with
        | .basicU .bInt => .ok (TYPE_ENUM, LABEL_OPTIONAL, fullName, g)
        | .basicU .bInt32 => .ok (TYPE_ENUM, LABEL_OPTIONAL, fullName, g)
        | .structU => .ok (TYPE_MESSAGE, LABEL_OPTIONAL, fullName, g)
        | _ => .ok (0, 0, "", g)
  | .sliceOf elem =>
    -- the Go code tests `elem is a *types.Basic of kind Byte`, which is
    -- exactly equality with the byte basic type here
    if elem = GoType.basic .bByte then .ok (TYPE_BYTES, LABEL_OPTIONAL, "", g)
    else
      match convertType g elem with
      | .error e => .error e
      | .ok (dtyp, _, name, g) =>
        if dtyp = 0 then .ok (0, 0, "", g)
        else .ok (dtyp, LABEL_REPEATED, name, g)
  | .mapOf _ _ => .ok (0, 0, "", g)
  | .otherType => .ok (0, 0, "", g)

/-- The value components of convertType (the triple is independent of the
state accumulated along the way). -/
def convertTypeTriple (g : Generator) (t : GoType) : Except String (Nat × Nat × String) :=
  match convertType g t with
  | .error e => .error e
  | .ok (a, b, c, _) => .ok (a, b, c)

/-- convertMap synthesizes the nested `<FieldName>Entry` map-entry message.
When the key or value type is unsupported it returns `("", none)`
without an error, exactly as the Go code does. -/
def convertMap (g : Generator) (parentName fieldName : String)
    (keyTyp elemTyp : GoType) :
    Except String (String × Option NestedDescriptorProto × Generator) :=
  let mapName := fieldName ++ "Entry"
  match qualifiedTypeName g (parentName ++ "." ++ mapName) none with
  | .error e => .error e
  | .ok typeName =>
    match convertType g keyTyp with
    | .error e => .error e
    | .ok (keyType, _, keyTypeName, g) =>
      if keyType = 0 then .ok ("", none, g)
      else
        match convertType g elemTyp with
        | .error e => .error e
        | .ok (elemType, _, elemTypeName, g) =>
          if elemType = 0 then .ok ("", none, g)
          else
            .ok (typeName, some
              { name := mapName
                options := some { mapEntry := some true }
                field := [
                  { name := "key", number := 1,
                    typeName := protoStringOrNil keyTypeName, typ := keyType,
                    label := LABEL_OPTIONAL, jsonName := none, options := none },
                  { name := "value", number := 2,
                    typeName := protoStringOrNil elemTypeName, typ := elemType,
                    label := LABEL_OPTIONAL, jsonName := none, options := none }] }, g)

/-- convertParameter turns a method parameter or result tuple into
`(type-name, streaming)`.  The empty tuple yields google.protobuf.Empty
with a nil streaming flag; two or more entries are rejected. -/
def convertParameter (g : Generator) (tuple : List GoType) :
    Except String (Option String × Option Bool × Generator) :=
  match tuple with
  | [] =>
    .ok (some ".google.protobuf.Empty", none,
         addProtoDepG g "google/protobuf/empty.proto")
  | [param] =>
    match convertType g param with
    | .error e => .error e
    | .ok (_, label, tname, g) =>
      if tname = "" then .error "unsupported parameter type"
      else if label = LABEL_REPEATED then .error "parameter type should not be repeated"
      else
        let isStream : Option Bool :=
          match param with
          | .chanOf _ => some true
          | _ => some false
        .ok (some tname, isStream, g)
  | _ => .error "multiple parameters are not supported"

/-! ## Message translation -/

/-- The type-conversion step of the field loop: a map type goes through
convertMap (yielding a nested contribution, forced to MESSAGE/REPEATED),
every other type through convertType (no contribution). -/
def convertFieldType (g : Generator) (parentName fieldName : String) (t : GoType) :
    Except String (Nat × Nat × String × Option (Option NestedDescriptorProto) × Generator) :=
  match t with
  | .mapOf k v =>
    match convertMap g parentName fieldName k v with
    | .error e => .error e
    | .ok (tname, nested, g2) => .ok (TYPE_MESSAGE, LABEL_REPEATED, tname, some nested, g2)
  | t =>
    match convertType g t with
    | .error e => .error e
    | .ok (ptype, plabel, tname, g2) => .ok (ptype, plabel, tname, none, g2)

/-- One iteration of the field loop of convertMessage.  The field needs
exactly one name and a `pb:"N"` struct tag; a map-typed field goes
through convertMap (its entry — possibly a nil pointer — is the nested
contribution), every other type through convertType (no contribution). -/
def convertField (g : Generator) (parentName : String) (field : StructField) (i : Nat) :
    Except String
      (FieldDescriptorProto × Option (Option NestedDescriptorProto) × Generator) :=
  match field.names with
  | [fieldName] =>
    let g1 := addDoc g field.doc [messagePath, g.messageIndex, messageFieldPath, Int.ofNat i]
    match convertFieldType g1 parentName fieldName field.typ with
    | .error e => .error e
    | .ok (ptype, plabel, tname, nestedContrib, g2) =>
      if ptype = 0 then .error "unsupported field type"
      else
        match field.tag with
        | none => .error ("missing required tag on " ++ fieldName)
        | some tag =>
          match protoNumber tag with
          | .error e => .error ("unable to convert tag to number on " ++ fieldName ++ ": " ++ e)
          | .ok num =>
            match fieldOptions field with
            | .error e => .error ("error getting field options: " ++ e)
            | .ok fo =>
              .ok ({ name := fieldName, number := num,
                     typeName := protoStringOrNil tname, typ := ptype,
                     label := plabel, jsonName := jsonName tag, options := some fo },
                   nestedContrib, g2)
  | _ => .error "need all fields to have one name"

/-- The field loop of convertMessage. -/
def convertFields (g : Generator) (parentName : String) :
    List StructField → Nat →
    Except String (List FieldDescriptorProto × List (Option NestedDescriptorProto) × Generator)
  | [], _ => .ok ([], [], g)
  | field :: rest, i =>
    match convertField g parentName field i with
    | .error e => .error e
    | .ok (fd, nestedContrib, g2) =>
      match convertFields g2 parentName rest (i + 1) with
      | .error e => .error e
      | .ok (fds, nts, g3) =>
        match nestedContrib with
        | none => .ok (fd :: fds, nts, g3)
        | some nt => .ok (fd :: fds, nt :: nts, g3)

/-- convertMessage translates a struct TYPE declaration into a message
descriptor. -/
def convertMessage (g : Generator) (tspec : TypeSpec) :
    Except String (DescriptorProto × Generator) :=
  match tspec.ttype with
  | .structType fields =>
    let g := addDoc g tspec.doc [messagePath, g.messageIndex]
    match messageOptions tspec.tags with
    | .error e => .error ("error getting message options: " ++ e)
    | .ok mo =>
      match convertFields g tspec.name fields 0 with
      | .error e => .error e
      | .ok (fds, nts, g1) =>
        .ok ({ name := tspec.name, options := some mo, field := fds, nestedType := nts },
             { g1 with messageIndex := g1.messageIndex + 1 })
  | _ => .error "convertMessage: not a struct type"

/-! ## Service translation -/

/-- The method loop of convertService: per method, its doc, options and
the two convertParameter calls for the input and the output. -/
def convertMethods (g : Generator) :
    List IMethod → Nat → Except String (List MethodDescriptorProto × Generator)
  | [], _ => .ok ([], g)
  | method :: rest, i =>
    match method.names with
    | [mname] =>
      let g1 := addDoc g method.doc [servicePath, g.serviceIndex, serviceMethodPath, Int.ofNat i]
      match methodOptions g1 method.tags with
      | .error e => .error ("error getting method options: " ++ e)
      | .ok (mo, g2) =>
        match convertParameter g2 method.params with
        | .error e => .error e
        | .ok (inT, cs, g3) =>
          match convertParameter g3 method.results with
          | .error e => .error e
          | .ok (outT, ss, g4) =>
            match convertMethods g4 rest (i + 1) with
            | .error e => .error e
            | .ok (ms, g5) =>
              .ok ({ name := mname, inputType := inT, outputType := outT,
                     clientStreaming := cs, serverStreaming := ss,
                     options := some mo } :: ms, g5)
    | _ => .error "need all methods to have one name"

/-- convertService translates an interface TYPE declaration into a service
descriptor. -/
def convertService (g : Generator) (tspec : TypeSpec) :
    Except String (ServiceDescriptorProto × Generator) :=
  match tspec.ttype with
  | .interfaceType methods =>
    match serviceOptions tspec.tags with
    | .error e => .error ("error getting service options: " ++ e)
    | .ok so =>
      match convertMethods g methods 0 with
      | .error e => .error e
      | .ok (ms, g1) =>
        .ok ({ name := tspec.name, options := some so, method := ms },
             { g1 with serviceIndex := g1.serviceIndex + 1 })
  | _ => .error "convertService: not an interface type"

/-! ## Enum translation -/

/-- The spec loop inside one CONST declaration: every spec must declare
exactly one name (this is checked before the type test); specs whose
declared type is not the enum type are skipped; matching specs become
enum values, with doc-comment renaming when the doc starts with the
value's identifier. -/
def enumValuesFromSpecs (g : Generator) (tname : String) (enumId : Nat) :
    List ValueSpec → Nat →
    Except String (List EnumValueDescriptorProto × Generator)
  | [], _ => .ok ([], g)
  | vs :: rest, i =>
    match vs.names with
    | [name] =>
      if vs.typeId ≠ enumId then enumValuesFromSpecs g tname enumId rest (i + 1)
      else
        let g1 :=
          if vs.doc = "" then g
          else if vs.doc.startsWith name then
            addDoc g (tname ++ "_" ++ vs.doc) [enumPath, g.enumIndex, enumValuePath, Int.ofNat i]
          else addDoc g vs.doc [enumPath, g.enumIndex, enumValuePath, Int.ofNat i]
        match enumValueOptions vs.tags with
        | .error e => .error ("error getting enum value options: " ++ e)
        | .ok vo =>
          match enumValuesFromSpecs g1 tname enumId rest (i + 1) with
          | .error e => .error e
          | .ok (vals, g2) =>
            .ok ({ name := name, number := toInt32 vs.value, options := some vo } :: vals, g2)
    | _ => .error "need all value specs to define one name"

/-- The declaration scan of convertEnum: every CONST declaration of the
current file is visited, with a per-declaration spec index. -/
def enumValuesFromDecls (g : Generator) (tname : String) (enumId : Nat) :
    List Decl → Except String (List EnumValueDescriptorProto × Generator)
  | [] => .ok ([], g)
  | d :: rest =>
    match d with
    | .constDecl specs =>
      match enumValuesFromSpecs g tname enumId specs 0 with
      | .error e => .error e
      | .ok (vals, g1) =>
        match enumValuesFromDecls g1 tname enumId rest with
        | .error e => .error e
        | .ok (vals2, g2) => .ok (vals ++ vals2, g2)
    | _ => enumValuesFromDecls g tname enumId rest

/-- convertEnum translates a named-basic TYPE declaration into an enum
descriptor, discovering its values among the same-file constants; an
enum that ends up with no values yields `none`. -/
def convertEnum (g : Generator) (tspec : TypeSpec) :
    Except String (Option EnumDescriptorProto × Generator) :=
  match tspec.ttype with
  | .identType enumId =>
    let g := addDoc g tspec.doc [enumPath, g.enumIndex]
    match enumOptions tspec.tags with
    | .error e => .error ("error getting enum options: " ++ e)
    | .ok eo =>
      match enumValuesFromDecls g tspec.name enumId g.gfileDecls with
      | .error e => .error e
      | .ok (vals, g1) =>
        let g2 := { g1 with enumIndex := g1.enumIndex + 1 }
        if vals = [] then .ok (none, g2)
        else .ok (some { name := tspec.name, options := some eo, value := vals }, g2)
  | _ => .error "convertEnum: not an ident type"

/-! ## Declarations and files -/

/-- The spec loop of translateDecl for a TYPE declaration: structs become
messages, interfaces services, idents enums (appended only when they
have values). -/
def translateSpecs (g : Generator) : List TypeSpec → Except String Generator
  | [] => .ok g
  | ts :: rest =>
    match ts.ttype with
    | .structType _ =>
      match convertMessage g ts with
      | .error e => .error e
      | .ok (msg, g1) =>
        translateSpecs
          { g1 with pfile := { g1.pfile with messageType := g1.pfile.messageType ++ [msg] } } rest
    | .interfaceType _ =>
      match convertService g ts with
      | .error e => .error e
      | .ok (srv, g1) =>
        translateSpecs
          { g1 with pfile := { g1.pfile with service := g1.pfile.service ++ [srv] } } rest
    | .identType _ =>
      match convertEnum g ts with
      | .error e => .error e
      | .ok (enum?, g1) =>
        match enum? with
        | none => translateSpecs g1 rest
        | some enum =>
          translateSpecs
            { g1 with pfile := { g1.pfile with enumType := g1.pfile.enumType ++ [enum] } } rest
    | .otherType => .error "invalid declaration type"

/-- translateDecl: TYPE declarations are translated, CONST and IMPORT
declarations are skipped, anything else is invalid. -/
def translateDecl (g : Generator) (decl : Decl) : Except String Generator :=
  match decl with
  | .typeDecl specs => translateSpecs g specs
  | .constDecl _ => .ok g
  | .importDecl => .ok g
  | .otherDecl => .error "invalid declaration"

/-- appendFile translates one gunk file, appending to the package's proto
file; it initializes the source-code info and records the package doc. -/
def appendFile (g : Generator) (fpath : String) (file : GunkFile) :
    Except String Generator :=
  if (lookupA g.allProto fpath).isSome then .ok g
  else
    let g := { g with gfileDecls := file.decls }
    let g := { g with pfile := { g.pfile with
        sourceCodeInfo := some (g.pfile.sourceCodeInfo.getD []) } }
    let g := addDoc g file.doc [packagePath]
    file.decls.foldlM translateDecl g

def appendFiles (g : Generator) : List (String × GunkFile) → Except String Generator
  | [] => .ok g
  | (fpath, file) :: rest =>
    match appendFile g fpath file with
    | .error e => .error e
    | .ok g => appendFiles g rest

/-! ## Package translation -/

/-- The import scan after a package's files are translated: for every
non-underscore import of a gunk package with source files that was
marked used, the imported package's proto file becomes a dependency,
and it is queued for translation if not translated yet. -/
def importDeps (g : Generator) (left : List String) :
    List ImportSpec → List String × Generator
  | [] => (left, g)
  | imp :: rest =>
    if imp.underscore then importDeps g left rest
    else
      let opath := imp.path
      match lookupA g.gunkPkgs opath with
      | none => importDeps g left rest
      | some pkg =>
        if pkg.gunkNames = [] then importDeps g left rest
        else if !(g.usedImports.contains opath) then importDeps g left rest
        else
          let pfile := unifiedProtoFile opath
          let left := if (lookupA g.allProto pfile).isSome then left else left ++ [opath]
          importDeps (addProtoDepG g pfile) left rest

def importDepsFiles (g : Generator) (left : List String) :
    List GunkFile → List String × Generator
  | [] => (left, g)
  | f :: rest =>
    let r := importDeps g left f.imports
    importDepsFiles r.2 r.1 rest

mutual

/-- translatePkg translates one gunk package into its `all.proto`
descriptor file.  If the file is already in the descriptor table the
call returns at once with the state untouched.  The recursion into
imported packages happens after the current package's state is written
back; `fuel` bounds the recursion depth (the Go recursion terminates
because every recursive call is guarded by table membership). -/
def translatePkg : Nat → Generator → String → Except String Generator
  | fuel, g, pkgPath =>
    match lookupA g.gunkPkgs pkgPath with
    | none => .error ("failed to get package " ++ pkgPath ++ " to translate")
    | some gpkg =>
      let pfilename := unifiedProtoFile gpkg.pkgPath
      if (lookupA g.allProto pfilename).isSome then .ok g
      else
        match fuel with
        | 0 => .error "translatePkg: recursion limit"
        | fuel + 1 =>
          let g := { g with curPkg := gpkg, usedImports := [] }
          match fileOptions gpkg with
          | .error e => .error ("unable to get file options: " ++ e)
          | .ok fo =>
            let protoGoPkgPath :=
              if pkgPath = "command-line-arguments" then
                "fake-path.com/command-line-arguments"
              else pkgPath
            let fo := { fo with goPackage := some (protoGoPkgPath ++ ";" ++ gpkg.name) }
            let pfile : FileDescriptorProto :=
              { protoSyntax := "proto3", name := pfilename, pkg := gpkg.protoName,
                options := fo, dependency := [], messageType := [], service := [],
                enumType := [], sourceCodeInfo := none }
            let g := { g with
              pfile := pfile
              allProto := insertA g.allProto pfilename pfile
              messageIndex := 0
              serviceIndex := 0
              enumIndex := 0 }
            match appendFiles g (gpkg.gunkNames.zip gpkg.astFiles) with
            | .error e => .error e
            | .ok g =>
              let r := importDepsFiles g [] gpkg.astFiles
              -- Go shares g.pfile with the table entry by pointer; the
              -- accumulated mutations are written back before recursing.
              let g := { r.2 with allProto := insertA r.2.allProto pfilename r.2.pfile }
              translateAll fuel g r.1
  termination_by fuel _ _ => (fuel, 0, 0)

/-- The recursive translatePkg calls over the queued import paths. -/
def translateAll : Nat → Generator → List String → Except String Generator
  | _, g, [] => .ok g
  | fuel, g, p :: rest =>
    match translatePkg fuel g p with
    | .error e => .error e
    | .ok g => translateAll fuel g rest
  termination_by fuel _ l => (fuel, 1, l.length)

end

/-! ## Properties of the topological sort -/

/-- `f` depends directly on `g` within `files`. -/
def dependsOn (files : List FileDescriptorProto) (f g : FileDescriptorProto) : Prop :=
  f ∈ files ∧ g ∈ files ∧ g.name ∈ f.dependency

/-- The dependency relation of `files` has no (transitive) cycle. -/
def depAcyclic (files : List FileDescriptorProto) : Prop :=
  ∀ f, ¬ Relation.TransGen (dependsOn files) f f

/-- Every dependency of every file names a file of the list. -/
def depsClosed (files : List FileDescriptorProto) : Prop :=
  ∀ f ∈ files, ∀ d ∈ f.dependency, ∃ h ∈ files, h.name = d

/-- The file names are pairwise distinct. -/
def namesNodup (files : List FileDescriptorProto) : Prop :=
  (files.map (fun f => f.name)).Nodup

instance (files : List FileDescriptorProto) : Decidable (depsClosed files) := by
  unfold depsClosed; infer_instance

instance (files : List FileDescriptorProto) : Decidable (namesNodup files) := by
  unfold namesNodup; infer_instance

lemma topoReady_iff (previous : List String) (f : FileDescriptorProto) :
    topoReady previous f = true ↔
      f.name ∉ previous ∧ ∀ d ∈ f.dependency, d ∈ previous := by
  simp [topoReady, List.elem_iff, List.all_eq_true]

lemma topoStep_mem {previous : List String} {files : List FileDescriptorProto}
    {f : FileDescriptorProto} (h : topoStep previous files = some f) : f ∈ files :=
  List.mem_of_find?_eq_some h

lemma topoStep_ready {previous : List String} {files : List FileDescriptorProto}
    {f : FileDescriptorProto} (h : topoStep previous files = some f) :
    topoReady previous f = true :=
  List.find?_some h

lemma findCongr {α : Type} {p q : α → Bool} (h : ∀ a, p a = q a) :
    ∀ l : List α, l.find? p = l.find? q := by
  intro l
  induction l with
  | nil => rfl
  | cons a l ih => simp only [List.find?_cons, h a, ih]

lemma topoStep_congr {p q : List String} (h : ∀ s, s ∈ p ↔ s ∈ q)
    (files : List FileDescriptorProto) : topoStep p files = topoStep q files := by
  unfold topoStep
  refine findCongr (fun f => ?_) files
  have hc : ∀ s, p.contains s = q.contains s := by
    intro s
    by_cases hs : s ∈ p
    · have hq : s ∈ q := (h s).mp hs
      simp [List.elem_iff, hs, hq]
    · have hq : s ∉ q := fun hq => hs ((h s).mpr hq)
      simp [List.elem_iff, hs, hq]
  have hfun : (fun d => p.contains d) = (fun d => q.contains d) := funext hc
  simp only [topoReady]
  rw [hc f.name, hfun]

/-- The invariant of `topoLoop`: `previous` holds exactly the names of
`result`, whose entries come from the input, have pairwise distinct
names, have their dependencies satisfied by earlier entries, and were
chosen greedily (each entry is the first ready file in input order). -/
structure TopoInv (files : List FileDescriptorProto) (previous : List String)
    (result : List FileDescriptorProto) : Prop where
  prevNames : ∀ s, s ∈ previous ↔ s ∈ result.map (fun f => f.name)
  subset : ∀ f ∈ result, f ∈ files
  nodupNames : (result.map (fun f => f.name)).Nodup
  depsOk : ∀ i (hi : i < result.length),
    ∀ d ∈ (result.get ⟨i, hi⟩).dependency,
      d ∈ (result.take i).map (fun f => f.name)
  greedy : ∀ k (hk : k < result.length),
    topoStep ((result.take k).map (fun f => f.name)) files =
      some (result.get ⟨k, hk⟩)

lemma topoInv_nil (files : List FileDescriptorProto) : TopoInv files [] [] :=
  ⟨by simp, by simp, by simp,
   by intro i hi; simp at hi,
   by intro k hk; simp at hk⟩

lemma topoInv_step {files : List FileDescriptorProto} {previous : List String}
    {result : List FileDescriptorProto} {f : FileDescriptorProto}
    (hinv : TopoInv files previous result)
    (hstep : topoStep previous files = some f) :
    TopoInv files (f.name :: previous) (result ++ [f]) := by
  obtain ⟨hnotin, hdeps⟩ := (topoReady_iff previous f).mp (topoStep_ready hstep)
  have hmem := topoStep_mem hstep
  have hnameNotIn : f.name ∉ result.map (fun x => x.name) :=
    fun hx => hnotin ((hinv.prevNames f.name).mpr hx)
  have hlen : (result ++ [f]).length = result.length + 1 := by simp
  refine ⟨?_, ?_, ?_, ?_, ?_⟩
  · intro s
    simp only [List.mem_cons, List.map_append, List.map_cons, List.map_nil,
      List.mem_append, hinv.prevNames s, List.mem_singleton]
    tauto
  · intro x hx
    rcases List.mem_append.mp hx with hx | hx
    · exact hinv.subset x hx
    · rw [List.mem_singleton] at hx
      subst hx
      exact hmem
  · simp only [List.map_append, List.map_cons, List.map_nil]
    rw [List.nodup_append]
    refine ⟨hinv.nodupNames, by simp, ?_⟩
    intro s hs
    simp only [List.mem_singleton]
    intro hsf
    subst hsf
    exact hnameNotIn hs
  · intro i hi d hd
    rw [hlen] at hi
    rcases Nat.lt_succ_iff_lt_or_eq.mp hi with hlt | heq
    · have hget : (result ++ [f]).get ⟨i, by simp; omega⟩ = result.get ⟨i, hlt⟩ :=
        List.get_append i hlt
      rw [List.take_append_of_le_length (Nat.le_of_lt hlt)]
      exact hinv.depsOk i hlt d (by rw [← hget]; exact hd)
    · subst heq
      have hget : (result ++ [f]).get ⟨result.length, by simp⟩ = f := by simp
      rw [List.take_append_of_le_length (le_refl _), List.take_length]
      have hdf : d ∈ f.dependency := by rw [← hget]; exact hd
      exact (hinv.prevNames d).mp (hdeps d hdf)
  · intro k hk
    rw [hlen] at hk
    rcases Nat.lt_succ_iff_lt_or_eq.mp hk with hlt | heq
    · have hget : (result ++ [f]).get ⟨k, by simp; omega⟩ = result.get ⟨k, hlt⟩ :=
        List.get_append k hlt
      rw [List.take_append_of_le_length (Nat.le_of_lt hlt), hget]
      exact hinv.greedy k hlt
    · subst heq
      have hget : (result ++ [f]).get ⟨result.length, by simp⟩ = f := by simp
      rw [List.take_append_of_le_length (le_refl _), List.take_length, hget]
      rw [topoStep_congr (fun s => (hinv.prevNames s).symm) files]
      exact hstep

/-- What holds of a completed sort result. -/
structure TopoOut (files r : List FileDescriptorProto) : Prop where
  subset : ∀ f ∈ r, f ∈ files
  nodupNames : (r.map (fun f => f.name)).Nodup
  depsOk : ∀ i (hi : i < r.length),
    ∀ d ∈ (r.get ⟨i, hi⟩).dependency, d ∈ (r.take i).map (fun f => f.name)
  greedy : ∀ k (hk : k < r.length),
    topoStep ((r.take k).map (fun f => f.name)) files = some (r.get ⟨k, hk⟩)
  full : files.length ≤ r.length

lemma topoLoop_sound {files : List FileDescriptorProto} :
    ∀ fuel {previous : List String} {result r : List FileDescriptorProto},
      TopoInv files previous result →
      topoLoop files fuel previous result = some r → TopoOut files r := by
  intro fuel
  induction fuel with
  | zero =>
    intro previous result r hinv hloop
    simp only [topoLoop] at hloop
    split at hloop
    · exact absurd hloop (by simp)
    · next hge =>
      injection hloop with h
      subst h
      exact ⟨hinv.subset, hinv.nodupNames, hinv.depsOk, hinv.greedy,
             Nat.le_of_not_lt hge⟩
  | succ n ih =>
    intro previous result r hinv hloop
    simp only [topoLoop] at hloop
    split at hloop
    · cases hstep : topoStep previous files with
      | none => rw [hstep] at hloop; exact absurd hloop (by simp)
      | some f =>
        rw [hstep] at hloop
        exact ih (topoInv_step hinv hstep) hloop
    · next hge =>
      injection hloop with h
      subst h
      exact ⟨hinv.subset, hinv.nodupNames, hinv.depsOk, hinv.greedy,
             Nat.le_of_not_lt hge⟩

lemma topoOut_perm {files r : List FileDescriptorProto} (hout : TopoOut files r) :
    r.Perm files := by
  have hnodup : r.Nodup := hout.nodupNames.of_map _
  have hsub : r ⊆ files := fun x hx => hout.subset x hx
  exact (List.subperm_of_subset hnodup hsub).perm_of_length_le hout.full

lemma topoStep_isSome_of_acyclic {files : List FileDescriptorProto}
    (hnodup : namesNodup files) (hclosed : depsClosed files)
    (hacyc : depAcyclic files)
    {previous : List String} {result : List FileDescriptorProto}
    (hinv : TopoInv files previous result)
    (hlt : result.length < files.length) :
    ∃ f, topoStep previous files = some f := by
  have hstepA : ∃ f ∈ files, f.name ∉ previous := by
    by_contra hall
    push_neg at hall
    have hsub : (files.map (fun f => f.name)) ⊆ (result.map (fun f => f.name)) := by
      intro s hs
      simp only [List.mem_map] at hs
      obtain ⟨f, hf, rfl⟩ := hs
      exact (hinv.prevNames f.name).mp (hall f hf)
    have hle := (List.subperm_of_subset hnodup hsub).length_le
    simp only [List.length_map] at hle
    omega
  obtain ⟨f0, hf0, hf0p⟩ := hstepA
  haveI hfin : Finite {f : FileDescriptorProto // f ∈ files} :=
    (List.finite_toSet files).to_subtype
  let R : {f : FileDescriptorProto // f ∈ files} →
      {f : FileDescriptorProto // f ∈ files} → Prop :=
    fun x y => Relation.TransGen (dependsOn files) y.val x.val
  have hwf : WellFounded R := by
    haveI : IsTrans _ R := ⟨fun x y z hxy hyz => Relation.TransGen.trans hyz hxy⟩
    haveI : IsIrrefl _ R := ⟨fun x hx => hacyc x.val hx⟩
    exact Finite.wellFounded_of_trans_of_irrefl R
  obtain ⟨m, hmS, hmin⟩ :=
    hwf.has_min {a | a.val.name ∉ previous} ⟨⟨f0, hf0⟩, hf0p⟩
  have hready : topoReady previous m.val = true := by
    rw [topoReady_iff]
    refine ⟨hmS, ?_⟩
    intro d hd
    by_contra hdp
    obtain ⟨h, hhf, hhname⟩ := hclosed m.val m.property d hd
    have hxS : (⟨h, hhf⟩ : {f : FileDescriptorProto // f ∈ files}) ∈
        {a : {f : FileDescriptorProto // f ∈ files} | a.val.name ∉ previous} := by
      simp only [Set.mem_setOf_eq]
      rw [hhname]
      exact hdp
    exact hmin ⟨h, hhf⟩ hxS
      (Relation.TransGen.single ⟨m.property, hhf, hhname ▸ hd⟩)
  have hsome : (topoStep previous files).isSome := by
    rw [topoStep, List.find?_isSome]
    exact ⟨m.val, m.property, hready⟩
  exact Option.isSome_iff_exists.mp hsome

lemma topoLoop_isSome_of_acyclic {files : List FileDescriptorProto}
    (hnodup : namesNodup files) (hclosed : depsClosed files)
    (hacyc : depAcyclic files) :
    ∀ fuel {previous : List String} {result : List FileDescriptorProto},
      TopoInv files previous result →
      files.length ≤ fuel + result.length →
      (topoLoop files fuel previous result).isSome := by
  intro fuel
  induction fuel with
  | zero =>
    intro previous result hinv hle
    simp only [topoLoop]
    rw [if_neg (by omega)]
    simp
  | succ n ih =>
    intro previous result hinv hle
    by_cases hlt : result.length < files.length
    · obtain ⟨f, hf⟩ := topoStep_isSome_of_acyclic hnodup hclosed hacyc hinv hlt
      simp only [topoLoop]
      rw [if_pos hlt, hf]
      exact ih (topoInv_step hinv hf) (by simp; omega)
    · simp only [topoLoop]
      rw [if_neg hlt]
      simp

lemma indexOfLt_of_mem_take {a : String} :
    ∀ {l : List String} {i : Nat}, a ∈ l.take i → l.indexOf a < i := by
  intro l
  induction l with
  | nil => intro i h; simp at h
  | cons x xs ih =>
    intro i h
    cases i with
    | zero => simp at h
    | succ n =>
      simp only [List.take_succ_cons, List.mem_cons] at h
      by_cases hax : a = x
      · subst hax
        simp [List.indexOf_cons_self]
      · rcases h with h | h
        · exact absurd h hax
        · have hxa : x ≠ a := fun hh => hax hh.symm
          rw [List.indexOf_cons_ne _ hxa]
          exact Nat.succ_lt_succ (ih h)

lemma nodup_indexOf_get {l : List String} (h : l.Nodup) {i : Nat} (hi : i < l.length) :
    l.indexOf (l.get ⟨i, hi⟩) = i := by
  have hmem : l.get ⟨i, hi⟩ ∈ l := List.get_mem l i hi
  have hlt : l.indexOf (l.get ⟨i, hi⟩) < l.length := List.indexOf_lt_length.mpr hmem
  have hget : l.get ⟨l.indexOf (l.get ⟨i, hi⟩), hlt⟩ = l.get ⟨i, hi⟩ :=
    List.indexOf_get hlt
  have hinj := List.nodup_iff_injective_get.mp h
  have heq := hinj hget
  exact congrArg Fin.val heq

lemma dep_lt_of_out {files r : List FileDescriptorProto} (hout : TopoOut files r)
    {a b : FileDescriptorProto} (hab : dependsOn files a b) :
    (r.map (fun f => f.name)).indexOf b.name <
      (r.map (fun f => f.name)).indexOf a.name := by
  obtain ⟨haf, hbf, hdep⟩ := hab
  have hperm := topoOut_perm hout
  have har : a ∈ r := hperm.mem_iff.mpr haf
  obtain ⟨⟨i, hi⟩, hget⟩ := List.mem_iff_get.mp har
  have hgetmap : (r.map (fun f => f.name)).get ⟨i, by simpa using hi⟩ = a.name := by
    simp only [List.get_map]
    rw [hget]
  have hidxa : (r.map (fun f => f.name)).indexOf a.name = i := by
    rw [← hgetmap]
    exact nodup_indexOf_get hout.nodupNames _
  have hd := hout.depsOk i hi b.name (by rw [hget]; exact hdep)
  rw [List.map_take] at hd
  have hlt : (r.map (fun f => f.name)).indexOf b.name < i := indexOfLt_of_mem_take hd
  omega

lemma depAcyclic_of_sorted {files r : List FileDescriptorProto}
    (h : topologicalSort files = some r) : depAcyclic files := by
  have hout : TopoOut files r := topoLoop_sound files.length (topoInv_nil files) h
  intro f hf
  have hdesc : ∀ x y, Relation.TransGen (dependsOn files) x y →
      (r.map (fun g => g.name)).indexOf y.name <
        (r.map (fun g => g.name)).indexOf x.name := by
    intro x y hxy
    induction hxy with
    | single h1 => exact dep_lt_of_out hout h1
    | tail _ h2 ih => exact lt_trans (dep_lt_of_out hout h2) ih
  exact absurd (hdesc f f hf) (lt_irrefl _)

/-- A descriptor file carrying only a name and dependencies, the parts the
sort inspects. -/
def mkPFile (name : String) (deps : List String) : FileDescriptorProto :=
  { emptyPFile with name := name, dependency := deps }

lemma depAcyclic_of_no_edges {files : List FileDescriptorProto}
    (h : ∀ f ∈ files, f.dependency = []) : depAcyclic files := by
  have hedge : ∀ x y, ¬ dependsOn files x y := by
    rintro x y ⟨hx, _, hdep⟩
    rw [h x hx] at hdep
    simp at hdep
  intro f hf
  cases hf with
  | single h1 => exact hedge _ _ h1
  | tail _ h2 => exact hedge _ _ h2

/-! ## Claim C1 -/

/-- Two distinct input files sharing the name "a" and having no
dependencies: an acyclic, dependency-closed input. -/
def c1dup : FileDescriptorProto := mkPFile "a" []

/-- C1, counterexample: on a list of two files with the same name, empty
dependencies (so the dependency relation is acyclic and every dependency
names a file of the list), topologicalSort aborts with the cycle panic
instead of returning a permutation: the claim as stated fails. -/
theorem c1_counterexample :
    depsClosed [c1dup, c1dup] ∧ depAcyclic [c1dup, c1dup] ∧
    topologicalSort [c1dup, c1dup] = none :=
  ⟨by decide, depAcyclic_of_no_edges (by decide), by decide⟩

/-- C1 (amended: the files must have pairwise distinct names):
topologicalSort, applied to files with pairwise distinct names whose
dependency relation is acyclic and whose every dependency names a file in
the list, returns a permutation of the input in which, for every file,
every name in its dependency list appears at an earlier position; ties
are broken by input order (position k holds the first file in input
order that is not among the first k and whose dependencies are all among
the first k); and when the dependency relation has a cycle the sort
aborts with the cycle panic instead of returning. -/
theorem c1_topologicalSort (files : List FileDescriptorProto)
    (hnodup : namesNodup files) (hclosed : depsClosed files) :
    (depAcyclic files →
      ∃ r, topologicalSort files = some r ∧ r.Perm files ∧
        (∀ i (hi : i < r.length), ∀ d ∈ (r.get ⟨i, hi⟩).dependency,
          d ∈ (r.take i).map (fun f => f.name)) ∧
        (∀ k (hk : k < r.length),
          topoStep ((r.take k).map (fun f => f.name)) files =
            some (r.get ⟨k, hk⟩))) ∧
    (¬ depAcyclic files → topologicalSort files = none) := by
  constructor
  · intro hacyc
    have hsome := topoLoop_isSome_of_acyclic hnodup hclosed hacyc files.length
      (topoInv_nil files) (by omega)
    obtain ⟨r, hr⟩ := Option.isSome_iff_exists.mp hsome
    have hout := topoLoop_sound files.length (topoInv_nil files) hr
    exact ⟨r, hr, topoOut_perm hout, hout.depsOk, hout.greedy⟩
  · intro hcyc
    cases h : topologicalSort files with
    | none => rfl
    | some r => exact absurd (depAcyclic_of_sorted h) hcyc

def c1a : FileDescriptorProto := mkPFile "a" []
def c1b : FileDescriptorProto := mkPFile "b" []

/-- C1, witness: the amended theorem applied to the two-file dependency-free
input ["a", "b"]. -/
theorem c1_witness :
    namesNodup [c1a, c1b] ∧ depsClosed [c1a, c1b] ∧ depAcyclic [c1a, c1b] ∧
    (∃ r, topologicalSort [c1a, c1b] = some r ∧ r.Perm [c1a, c1b] ∧
      (∀ i (hi : i < r.length), ∀ d ∈ (r.get ⟨i, hi⟩).dependency,
        d ∈ (r.take i).map (fun f => f.name)) ∧
      (∀ k (hk : k < r.length),
        topoStep ((r.take k).map (fun f => f.name)) [c1a, c1b] =
          some (r.get ⟨k, hk⟩))) :=
  ⟨by decide, by decide, depAcyclic_of_no_edges (by decide),
   (c1_topologicalSort [c1a, c1b] (by decide) (by decide)).1
     (depAcyclic_of_no_edges (by decide))⟩

/-! ## Claim C5 -/

def c5a : FileDescriptorProto := mkPFile "a" []
def c5b : FileDescriptorProto := mkPFile "b" []

/-- C5, counterexample: the descriptor table holding the two independent
files "a" and "b" can be enumerated by Go's map iteration in either
order; the two enumerations are permutations of the same table, both
runs succeed, yet the ProtoFile lists of the two requests differ — so
the ProtoFile order (and hence the marshaled FileDescriptorSet) is not
the same in both runs. -/
theorem c5_counterexample :
    List.Perm [c5a, c5b] [c5b, c5a] ∧
    requestForPkg "p" [c5a, c5b] =
      some { fileToGenerate := ["p/all.proto"], protoFile := [c5a, c5b],
             parameter := none } ∧
    requestForPkg "p" [c5b, c5a] =
      some { fileToGenerate := ["p/all.proto"], protoFile := [c5b, c5a],
             parameter := none } ∧
    (requestForPkg "p" [c5a, c5b]).map (fun r => r.protoFile) ≠
      (requestForPkg "p" [c5b, c5a]).map (fun r => r.protoFile) :=
  ⟨List.Perm.swap c5b c5a [], by decide, by decide, by decide⟩

/-- C5 (amended): two runs over the same loaded package graph build
requests with the same FileToGenerate and with ProtoFile lists that are
permutations of each other (the same descriptor multiset), but the
ProtoFile order — and hence the marshaled bytes — depends on the
enumeration order of the descriptor table, which Go's map iteration
leaves unspecified; enumeration orders that differ can produce different
ProtoFile orders. -/
theorem c5_request_determinism (pkgPath : String)
    (files1 files2 : List FileDescriptorProto)
    (req1 req2 : CodeGeneratorRequest)
    (hperm : files1.Perm files2)
    (h1 : requestForPkg pkgPath files1 = some req1)
    (h2 : requestForPkg pkgPath files2 = some req2) :
    req1.fileToGenerate = req2.fileToGenerate ∧
    req1.protoFile.Perm req2.protoFile := by
  unfold requestForPkg at h1 h2
  cases hs1 : topologicalSort files1 with
  | none => rw [hs1] at h1; exact absurd h1 (by simp)
  | some r1 =>
    cases hs2 : topologicalSort files2 with
    | none => rw [hs2] at h2; exact absurd h2 (by simp)
    | some r2 =>
      rw [hs1] at h1
      rw [hs2] at h2
      injection h1 with h1
      injection h2 with h2
      subst h1
      subst h2
      refine ⟨rfl, ?_⟩
      have hout1 := topoLoop_sound files1.length (topoInv_nil files1) hs1
      have hout2 := topoLoop_sound files2.length (topoInv_nil files2) hs2
      exact ((topoOut_perm hout1).trans hperm).trans (topoOut_perm hout2).symm

/-- The request built from the singleton table enumeration. -/
def c5req : CodeGeneratorRequest :=
  { fileToGenerate := ["p/all.proto"], protoFile := [c5a], parameter := none }

/-- C5, witness: the amended theorem applied to two equal singleton
enumerations of the table. -/
theorem c5_witness :
    List.Perm [c5a] [c5a] ∧
    requestForPkg "p" [c5a] = some c5req ∧
    c5req.fileToGenerate = c5req.fileToGenerate ∧
    c5req.protoFile.Perm c5req.protoFile :=
  ⟨List.Perm.refl _, by decide,
   (c5_request_determinism "p" [c5a] [c5a] c5req c5req (List.Perm.refl _)
     (by decide) (by decide)).1,
   (c5_request_determinism "p" [c5a] [c5a] c5req c5req (List.Perm.refl _)
     (by decide) (by decide)).2⟩

/-! ## Shared witness fixtures -/

/-- A small gunk package used by concrete witnesses. -/
def wpkg : GunkPackage :=
  { pkgPath := "example.com/p", name := "p", protoName := "pkg" }

/-- A generator state translating `wpkg`. -/
def wgen : Generator :=
  { curPkg := wpkg, pfile := emptyPFile, gunkPkgs := [("example.com/p", wpkg)] }

/-- A named struct type `Req` of the package under translation. -/
def wReq : NamedType :=
  { fullString := "example.com/p.Req", objName := "Req",
    pkgPath := "example.com/p", underlying := .structU }

/-! ## Claim C3 -/

lemma mem_addProtoDep (pfile : FileDescriptorProto) (p : String) :
    p ∈ (addProtoDep pfile p).dependency := by
  unfold addProtoDep
  split
  · next h => simpa [List.elem_iff] using h
  · simp

/-- C3: a method parameter or result tuple that is empty yields the type
`.google.protobuf.Empty` and adds `google/protobuf/empty.proto` to the
current descriptor file's dependency list; a tuple with two or more
entries makes translation fail with an error. -/
theorem c3_convertParameter_empty_multi (g : Generator) (tuple : List GoType) :
    (tuple = [] →
      convertParameter g tuple =
        .ok (some ".google.protobuf.Empty", none,
             addProtoDepG g "google/protobuf/empty.proto") ∧
      "google/protobuf/empty.proto" ∈
        (addProtoDepG g "google/protobuf/empty.proto").pfile.dependency) ∧
    (2 ≤ tuple.length →
      convertParameter g tuple = .error "multiple parameters are not supported") := by
  constructor
  · rintro rfl
    exact ⟨rfl, mem_addProtoDep g.pfile _⟩
  · intro hlen
    cases tuple with
    | nil => simp at hlen
    | cons a rest =>
      cases rest with
      | nil => simp at hlen
      | cons b rest2 => rfl

/-- C3, witness: the empty tuple and a two-element tuple at a concrete
generator state. -/
theorem c3_witness :
    (([] : List GoType) = [] →
      convertParameter wgen [] =
        .ok (some ".google.protobuf.Empty", none,
             addProtoDepG wgen "google/protobuf/empty.proto") ∧
      "google/protobuf/empty.proto" ∈
        (addProtoDepG wgen "google/protobuf/empty.proto").pfile.dependency) ∧
    (2 ≤ ([GoType.basic .bString, GoType.basic .bBool] : List GoType).length →
      convertParameter wgen [GoType.basic .bString, GoType.basic .bBool] =
        .error "multiple parameters are not supported") :=
  ⟨fun h => (c3_convertParameter_empty_multi wgen []).1 h,
   fun h => (c3_convertParameter_empty_multi wgen
     [GoType.basic .bString, GoType.basic .bBool]).2 h⟩

/-! ## Claim C9 -/

/-- C9: translatePkg is idempotent: for a known import path whose
descriptor file is already present in the descriptor table, the call
returns successfully with the whole generator state — the descriptor
table included — unchanged, for any recursion fuel. -/
theorem c9_translatePkg_idempotent (fuel : Nat) (g : Generator)
    (pkgPath : String) (gpkg : GunkPackage)
    (hpkg : lookupA g.gunkPkgs pkgPath = some gpkg)
    (hdone : (lookupA g.allProto (unifiedProtoFile gpkg.pkgPath)).isSome = true) :
    translatePkg fuel g pkgPath = .ok g := by
  simp only [translatePkg, hpkg, hdone, if_true]

/-- The package and generator of the C9 witness: the descriptor file of
`example.com/p` is already in the table. -/
def c9gen : Generator :=
  { curPkg := wpkg, pfile := emptyPFile,
    gunkPkgs := [("example.com/p", wpkg)],
    allProto := [("example.com/p/all.proto", emptyPFile)] }

/-- C9, witness: a repeated call on the already-translated package returns
ok with the state unchanged. -/
theorem c9_witness :
    lookupA c9gen.gunkPkgs "example.com/p" = some wpkg ∧
    (lookupA c9gen.allProto (unifiedProtoFile wpkg.pkgPath)).isSome = true ∧
    translatePkg 5 c9gen "example.com/p" = .ok c9gen :=
  ⟨by decide, by decide,
   c9_translatePkg_idempotent 5 c9gen "example.com/p" wpkg (by decide) (by decide)⟩

/-! ## Claim C10 -/

/-- C10: a single method parameter (or result) whose type converts to an
empty type-name (a basic scalar) or to the REPEATED label (a slice) makes
convertParameter fail; conversely, on success the converted type had a
nonempty name and a non-REPEATED label, and that name is the method's
input/output type. -/
theorem c10_convertParameter_rejects (g : Generator) (t : GoType)
    (ty lb : Nat) (nm : String) (g1 : Generator)
    (hconv : convertType g t = .ok (ty, lb, nm, g1)) :
    ((nm = "" ∨ lb = LABEL_REPEATED) →
      ∃ e, convertParameter g [t] = .error e) ∧
    (∀ tn st g2, convertParameter g [t] = .ok (tn, st, g2) →
      nm ≠ "" ∧ lb ≠ LABEL_REPEATED ∧ tn = some nm ∧ g2 = g1) := by
  constructor
  · intro h
    rcases h with h | h
    · exact ⟨"unsupported parameter type", by
        simp only [convertParameter, hconv]
        rw [if_pos h]⟩
    · by_cases hnm : nm = ""
      · exact ⟨"unsupported parameter type", by
          simp only [convertParameter, hconv]
          rw [if_pos hnm]⟩
      · exact ⟨"parameter type should not be repeated", by
          simp only [convertParameter, hconv]
          rw [if_neg hnm, if_pos h]⟩
  · intro tn st g2 hok
    simp only [convertParameter, hconv] at hok
    by_cases hnm : nm = ""
    · rw [if_pos hnm] at hok
      exact absurd hok (by simp)
    · rw [if_neg hnm] at hok
      by_cases hlb : lb = LABEL_REPEATED
      · rw [if_pos hlb] at hok
        exact absurd hok (by simp)
      · rw [if_neg hlb] at hok
        injection hok with hok
        have h1 := congrArg (fun x => x.1) hok
        have h2 := congrArg (fun x => x.2.2) hok
        simp only at h1 h2
        exact ⟨hnm, hlb, h1.symm, h2.symm⟩

/-- C10, witness: a plain `string` parameter (empty type-name) is
rejected. -/
theorem c10_witness :
    convertType wgen (GoType.basic .bString) =
      .ok (TYPE_STRING, LABEL_OPTIONAL, "", wgen) ∧
    ("" = "" ∨ LABEL_OPTIONAL = LABEL_REPEATED) ∧
    (∃ e, convertParameter wgen [GoType.basic .bString] = .error e) :=
  ⟨rfl, Or.inl rfl,
   (c10_convertParameter_rejects wgen (GoType.basic .bString)
     TYPE_STRING LABEL_OPTIONAL "" wgen rfl).1 (Or.inl rfl)⟩

/-! ## Claim C8 -/

/-- C8: for a method with exactly one input (or output) parameter that
convertParameter accepts, the streaming flag is `some true` exactly when
the parameter type is a channel (`some false` otherwise), and for a
channel the method's input (or output) type is the converted name of the
channel's element type. -/
theorem c8_streaming (g : Generator) (t : GoType)
    (tn : Option String) (st : Option Bool) (g1 : Generator)
    (hok : convertParameter g [t] = .ok (tn, st, g1)) :
    (st = some true ↔ ∃ e, t = GoType.chanOf e) ∧
    ((∀ e, t ≠ GoType.chanOf e) → st = some false) ∧
    (∀ e, t = GoType.chanOf e →
      ∃ ty lb nm g2, convertType g e = .ok (ty, lb, nm, g2) ∧ tn = some nm) := by
  cases hct : convertType g t with
  | error e =>
    simp only [convertParameter, hct] at hok
    exact absurd hok (by simp)
  | ok r =>
    obtain ⟨ty, lb, nm, g2⟩ := r
    simp only [convertParameter, hct] at hok
    by_cases hnm : nm = ""
    · rw [if_pos hnm] at hok
      exact absurd hok (by simp)
    · rw [if_neg hnm] at hok
      by_cases hlb : lb = LABEL_REPEATED
      · rw [if_pos hlb] at hok
        exact absurd hok (by simp)
      · rw [if_neg hlb] at hok
        injection hok with hok
        have h1 := congrArg (fun x => x.1) hok
        have h2 := congrArg (fun x => x.2.1) hok
        simp only at h1 h2
        refine ⟨?_, ?_, ?_⟩
        · rw [← h2]
          cases t with
          | chanOf e => simp
          | basic k => simp
          | named n => simp
          | sliceOf e => simp
          | mapOf k v => simp
          | otherType => simp
        · intro hne
          rw [← h2]
          cases t with
          | chanOf e => exact absurd rfl (hne e)
          | basic k => rfl
          | named n => rfl
          | sliceOf e => rfl
          | mapOf k v => rfl
          | otherType => rfl
        · rintro e rfl
          exact ⟨ty, lb, nm, g2, hct, h1.symm⟩

/-- C8, witness: a channel of the named struct `Req` gives client/server
streaming `some true` and the element's converted type name. -/
theorem c8_witness :
    convertParameter wgen [GoType.chanOf (GoType.named wReq)] =
      .ok (some ".pkg.Req", some true,
           { wgen with usedImports := wgen.usedImports ++ ["example.com/p"] }) ∧
    ((some true : Option Bool) = some true ↔
      ∃ e, GoType.chanOf (GoType.named wReq) = GoType.chanOf e) ∧
    (∀ e, GoType.chanOf (GoType.named wReq) = GoType.chanOf e →
      ∃ ty lb nm g2, convertType wgen e = .ok (ty, lb, nm, g2) ∧
        (some ".pkg.Req" : Option String) = some nm) := by
  have hok : convertParameter wgen [GoType.chanOf (GoType.named wReq)] =
      .ok (some ".pkg.Req", some true,
           { wgen with usedImports := wgen.usedImports ++ ["example.com/p"] }) := by
    rfl
  have h := c8_streaming wgen (GoType.chanOf (GoType.named wReq))
    (some ".pkg.Req") (some true)
    { wgen with usedImports := wgen.usedImports ++ ["example.com/p"] } hok
  exact ⟨hok, h.1, h.2.2⟩

/-! ## Claim C4 -/

/-- A message with one field of an unclassifiable basic type
(e.g. complex64). -/
def c4specDirect : TypeSpec :=
  { name := "B",
    ttype := .structType [
      { names := ["X"], typ := .basic .bOther, tag := some { pb := some 1 } }] }

/-- A message with a map field whose key type is unclassifiable. -/
def c4spec : TypeSpec :=
  { name := "Dict",
    ttype := .structType [
      { names := ["Items"], typ := .mapOf (.basic .bOther) (.basic .bInt32),
        tag := some { pb := some 1 } }] }

/-- C4: the converter does return the sentinel triple `(0, 0, "")` for an
unclassifiable type, and a struct field of such a type directly does make
convertMessage fail — but the claimed error is missing when the
unclassifiable type is the key (or value) of a map field: convertMap
returns `("", nil, nil)` with no error, and convertMessage succeeds,
appending a nil nested descriptor and emitting the map field with
MESSAGE type, REPEATED label and no type name. -/
theorem c4_map_unclassifiable_no_error :
    convertTypeTriple wgen (.basic .bOther) = .ok (0, 0, "") ∧
    convertMessage wgen c4specDirect = .error "unsupported field type" ∧
    convertMap wgen "Dict" "Items" (.basic .bOther) (.basic .bInt32) =
      .ok ("", none, wgen) ∧
    convertMessage wgen c4spec =
      .ok ({ name := "Dict",
             options := some (setDefaultsMessage {}),
             field := [{ name := "Items", number := 1, typeName := none,
                         typ := TYPE_MESSAGE, label := LABEL_REPEATED,
                         jsonName := none,
                         options := some (setDefaultsField {}) }],
             nestedType := [none] },
           { wgen with messageIndex := 1 }) :=
  ⟨rfl, rfl, rfl, rfl⟩

/-! ## Claim C7 -/

/-- An http.Match option tag with the given composite-literal entries. -/
def httpMatchTag (kvs : List (String × String)) : Tag :=
  { typeName := "github.com/gunk/opt/http.Match", value := .exprVal kvs }

/-- The binding built from one http.Match literal: decode with Method
defaulting to GET, then the five-verb dispatch. -/
def buildRuleKvs (kvs : List (String × String)) : Except String HttpBinding :=
  match decodeMatch kvs "GET" "" "" with
  | .error e => .error e
  | .ok (m, p, b) =>
    match httpPatternFor m p with
    | .error e => .error e
    | .ok pat => .ok { body := b, pattern := pat }

/-- The bindings of a list of http.Match literals, failing if any fails. -/
def bindingsOf : List (List (String × String)) → Except String (List HttpBinding)
  | [] => .ok []
  | kvs :: rest =>
    match buildRuleKvs kvs with
    | .error e => .error e
    | .ok b =>
      match bindingsOf rest with
      | .error e => .error e
      | .ok bs => .ok (b :: bs)

/-- The http.Match composite literals among a method's tags, in order. -/
def httpMatchKvsOf (tags : List Tag) : List (List (String × String)) :=
  tags.filterMap fun t =>
    if t.typeName = "github.com/gunk/opt/http.Match" then
      match t.value with
      | .exprVal kvs => some kvs
      | _ => none
    else none

/-- Folding bindings into the rule: the first binding initializes the
rule, the rest (and any later ones) are its additional bindings. -/
def extendRule : Option HttpRule → List HttpBinding → Option HttpRule
  | none, [] => none
  | none, b :: bs =>
    some { body := b.body, pattern := b.pattern, additionalBindings := bs }
  | some r, bs => some { r with additionalBindings := r.additionalBindings ++ bs }

lemma extendRule_nil (hr : Option HttpRule) : extendRule hr [] = hr := by
  cases hr with
  | none => rfl
  | some r => simp [extendRule]

lemma extendRule_cons (hr : Option HttpRule) (b : HttpBinding) (bs : List HttpBinding) :
    extendRule (extendRule hr [b]) bs = extendRule hr (b :: bs) := by
  cases hr with
  | none => simp [extendRule]
  | some r => simp [extendRule]

lemma httpMatchKvsOf_cons_skip {tag : Tag} {rest : List Tag}
    (h : tag.typeName ≠ "github.com/gunk/opt/http.Match") :
    httpMatchKvsOf (tag :: rest) = httpMatchKvsOf rest := by
  simp [httpMatchKvsOf, List.filterMap_cons, h]

lemma httpMatchKvsOf_cons_match {tag : Tag} {rest : List Tag}
    {kvs : List (String × String)}
    (h : tag.typeName = "github.com/gunk/opt/http.Match")
    (hv : tag.value = .exprVal kvs) :
    httpMatchKvsOf (tag :: rest) = kvs :: httpMatchKvsOf rest := by
  simp [httpMatchKvsOf, List.filterMap_cons, h, hv]

lemma methodOptionsLoop_http :
    ∀ (tags : List Tag) (g : Generator) (o : MethodOptions) (hr : Option HttpRule)
      (o' : MethodOptions) (hr' : Option HttpRule) (g' : Generator),
      methodOptionsLoop g o hr tags = .ok (o', hr', g') →
      (∃ bs, bindingsOf (httpMatchKvsOf tags) = .ok bs ∧ hr' = extendRule hr bs) ∧
      o'.httpRule = o.httpRule := by
  intro tags
  induction tags with
  | nil =>
    intro g o hr o' hr' g' h
    simp only [methodOptionsLoop] at h
    injection h with h
    have h1 := congrArg (fun x => x.1) h
    have h2 := congrArg (fun x => x.2.1) h
    simp only at h1 h2
    exact ⟨⟨[], rfl, by rw [← h2, extendRule_nil]⟩, by rw [← h1]⟩
  | cons tag rest ih =>
    intro g o hr o' hr' g' h
    simp only [methodOptionsLoop] at h
    by_cases h1 : tag.typeName = "github.com/gunk/opt/method.Deprecated"
    · rw [if_pos h1] at h
      obtain ⟨⟨bs, hbs, hext⟩, hpres⟩ := ih _ _ _ _ _ _ h
      refine ⟨⟨bs, ?_, hext⟩, hpres⟩
      rw [httpMatchKvsOf_cons_skip (by rw [h1]; decide)]
      exact hbs
    · rw [if_neg h1] at h
      by_cases h2 : tag.typeName = "github.com/gunk/opt/method.IdempotencyLevel"
      · rw [if_pos h2] at h
        obtain ⟨⟨bs, hbs, hext⟩, hpres⟩ := ih _ _ _ _ _ _ h
        refine ⟨⟨bs, ?_, hext⟩, hpres⟩
        rw [httpMatchKvsOf_cons_skip (by rw [h2]; decide)]
        exact hbs
      · rw [if_neg h2] at h
        by_cases h3 : tag.typeName = "github.com/gunk/opt/http.Match"
        · rw [if_pos h3] at h
          cases hv : tag.value with
          | exprVal kvs =>
            simp only [hv] at h
            cases hd : decodeMatch kvs "GET" "" "" with
            | error e =>
              simp only [hd] at h
              exact absurd h (by simp)
            | ok mpb =>
              obtain ⟨m, p, b⟩ := mpb
              simp only [hd] at h
              cases hp : httpPatternFor m p with
              | error e =>
                simp only [hp] at h
                exact absurd h (by simp)
              | ok pat =>
                simp only [hp] at h
                have hbuild : buildRuleKvs kvs = .ok { body := b, pattern := pat } := by
                  simp [buildRuleKvs, hd, hp]
                cases hr with
                | none =>
                  obtain ⟨⟨bs, hbs, hext⟩, hpres⟩ := ih _ _ _ _ _ _ h
                  refine ⟨⟨{ body := b, pattern := pat } :: bs, ?_, ?_⟩, hpres⟩
                  · rw [httpMatchKvsOf_cons_match h3 hv]
                    simp only [bindingsOf, hbuild, hbs]
                  · rw [hext]
                    exact extendRule_cons none { body := b, pattern := pat } bs
                | some r =>
                  obtain ⟨⟨bs, hbs, hext⟩, hpres⟩ := ih _ _ _ _ _ _ h
                  refine ⟨⟨{ body := b, pattern := pat } :: bs, ?_, ?_⟩, hpres⟩
                  · rw [httpMatchKvsOf_cons_match h3 hv]
                    simp only [bindingsOf, hbuild, hbs]
                  · rw [hext]
                    exact extendRule_cons (some r) { body := b, pattern := pat } bs
          | boolVal b => simp only [hv] at h; exact absurd h (by simp)
          | intVal i => simp only [hv] at h; exact absurd h (by simp)
          | strVal s => simp only [hv] at h; exact absurd h (by simp)
          | otherVal => simp only [hv] at h; exact absurd h (by simp)
        · rw [if_neg h3] at h
          by_cases h4 : tag.typeName = "github.com/gunk/opt/openapiv2.Operation"
          · rw [if_pos h4] at h
            obtain ⟨⟨bs, hbs, hext⟩, hpres⟩ := ih _ _ _ _ _ _ h
            refine ⟨⟨bs, ?_, hext⟩, hpres⟩
            rw [httpMatchKvsOf_cons_skip h3]
            exact hbs
          · rw [if_neg h4] at h
            exact absurd h (by simp)

lemma methodOptions_http {g : Generator} {tags : List Tag} {o : MethodOptions}
    {g' : Generator} (h : methodOptions g tags = .ok (o, g')) :
    ∃ bs, bindingsOf (httpMatchKvsOf tags) = .ok bs ∧
      o.httpRule = extendRule none bs ∧
      (o.httpRule.isSome = true →
        "google/api/annotations.proto" ∈ g'.pfile.dependency) := by
  unfold methodOptions at h
  cases hl : methodOptionsLoop g {} none tags with
  | error e =>
    rw [hl] at h
    exact absurd h (by simp)
  | ok r =>
    obtain ⟨o0, hr, g0⟩ := r
    rw [hl] at h
    obtain ⟨⟨bs, hbs, hext⟩, hpres⟩ := methodOptionsLoop_http tags g {} none o0 hr g0 hl
    cases hr with
    | none =>
      injection h with h
      have h1 := congrArg (fun x => x.1) h
      have h2 := congrArg (fun x => x.2) h
      simp only at h1 h2
      refine ⟨bs, hbs, ?_, ?_⟩
      · rw [← h1]
        have hsd : (setDefaultsMethod o0).httpRule = o0.httpRule := rfl
        rw [hsd, hpres]
        exact hext
      · intro hsome
        rw [← h1] at hsome
        have hsd : (setDefaultsMethod o0).httpRule = o0.httpRule := rfl
        rw [hsd, hpres] at hsome
        simp at hsome
    | some r =>
      injection h with h
      have h1 := congrArg (fun x => x.1) h
      have h2 := congrArg (fun x => x.2) h
      simp only at h1 h2
      refine ⟨bs, hbs, ?_, ?_⟩
      · rw [← h1]
        exact hext
      · intro _
        rw [← h2]
        exact mem_addProtoDep g0.pfile _

lemma decodeMatch_no_method :
    ∀ (kvs : List (String × String)) (m p b : String),
      (∀ kv ∈ kvs, kv.1 = "Path" ∨ kv.1 = "Body") →
      ∃ p' b', decodeMatch kvs m p b = .ok (m, p', b') := by
  intro kvs
  induction kvs with
  | nil => intro m p b _; exact ⟨p, b, rfl⟩
  | cons kv rest ih =>
    intro m p b hkeys
    obtain ⟨k, v⟩ := kv
    rcases hkeys (k, v) (by simp) with hk | hk
    · subst hk
      obtain ⟨p', b', hrec⟩ := ih m v b (fun kv h => hkeys kv (by simp [h]))
      refine ⟨p', b', ?_⟩
      simp [decodeMatch, hrec]
    · subst hk
      obtain ⟨p', b', hrec⟩ := ih m p v (fun kv h => hkeys kv (by simp [h]))
      refine ⟨p', b', ?_⟩
      simp [decodeMatch, hrec]

/-- C7: (1) an http.Match tag without a Method key produces a GET rule;
(2) for every method whose options translate successfully, the first
http.Match literal initializes the HTTP rule and each subsequent literal
is appended, in order, to its AdditionalBindings; (3) a Method value
outside GET/POST/DELETE/PUT/PATCH is an error; (4) the presence of an
HTTP rule puts google/api/annotations.proto in the current descriptor
file's dependencies. -/
theorem c7_http_options (g : Generator) (tags : List Tag)
    (o : MethodOptions) (g' : Generator)
    (kvs : List (String × String)) (m p : String) :
    ((∀ kv ∈ kvs, kv.1 = "Path" ∨ kv.1 = "Body") →
      ∃ o1 g1 r, methodOptions g [httpMatchTag kvs] = .ok (o1, g1) ∧
        o1.httpRule = some r ∧ (∃ pth, r.pattern = .get pth) ∧
        r.additionalBindings = []) ∧
    (methodOptions g tags = .ok (o, g') →
      ∃ bs, bindingsOf (httpMatchKvsOf tags) = .ok bs ∧
        o.httpRule = extendRule none bs) ∧
    (m ∉ (["GET", "POST", "DELETE", "PUT", "PATCH"] : List String) →
      ∃ e, methodOptions g [httpMatchTag [("Method", m), ("Path", p)]] = .error e) ∧
    (methodOptions g tags = .ok (o, g') → o.httpRule.isSome = true →
      "google/api/annotations.proto" ∈ g'.pfile.dependency) := by
  refine ⟨?_, ?_, ?_, ?_⟩
  · intro hkeys
    obtain ⟨p', b', hd⟩ := decodeMatch_no_method kvs "GET" "" "" hkeys
    refine ⟨setDefaultsMethod
        { httpRule := some { body := b', pattern := .get p', additionalBindings := [] } },
      addProtoDepG g "google/api/annotations.proto",
      { body := b', pattern := .get p', additionalBindings := [] },
      ?_, rfl, ⟨p', rfl⟩, rfl⟩
    simp [methodOptions, methodOptionsLoop, httpMatchTag, hd, httpPatternFor]
  · intro hok
    obtain ⟨bs, hbs, hrule, _⟩ := methodOptions_http hok
    exact ⟨bs, hbs, hrule⟩
  · intro hm
    have h1 : ¬ m = "GET" := fun hh => hm (by rw [hh]; decide)
    have h2 : ¬ m = "POST" := fun hh => hm (by rw [hh]; decide)
    have h3 : ¬ m = "DELETE" := fun hh => hm (by rw [hh]; decide)
    have h4 : ¬ m = "PUT" := fun hh => hm (by rw [hh]; decide)
    have h5 : ¬ m = "PATCH" := fun hh => hm (by rw [hh]; decide)
    refine ⟨"unknown method type: " ++ m, ?_⟩
    have hpat : httpPatternFor m p = .error ("unknown method type: " ++ m) := by
      simp [httpPatternFor, h1, h2, h3, h4, h5]
    simp [methodOptions, methodOptionsLoop, httpMatchTag, decodeMatch, hpat]
  · intro hok hsome
    obtain ⟨_, _, _, hdep⟩ := methodOptions_http hok
    exact hdep hsome

/-- The method option tags of the C7 witness: a POST binding followed by
a second match literal without a Method key. -/
def c7tags : List Tag :=
  [httpMatchTag [("Method", "POST"), ("Path", "/a"), ("Body", "*")],
   httpMatchTag [("Path", "/b")]]

/-- The HTTP rule the witness tags translate to. -/
def c7rule : HttpRule :=
  { body := "*"
    pattern := .post "/a"
    additionalBindings := [{ body := "", pattern := .get "/b" }] }

/-- The options the witness tags translate to. -/
def c7opts : MethodOptions :=
  { deprecated := some false
    idempotencyLevel := some 0
    httpRule := some c7rule
    openapiOperation := none }

/-- C7, witness: all four parts at concrete inputs — a Method-less match
literal, the two-literal tag list above, the verb TRACE, and the
annotations.proto dependency of the translated state. -/
theorem c7_witness :
    (∃ o1 g1 r, methodOptions wgen [httpMatchTag [("Path", "/ping")]] = .ok (o1, g1) ∧
      o1.httpRule = some r ∧ (∃ pth, r.pattern = .get pth) ∧
      r.additionalBindings = []) ∧
    (∃ bs, bindingsOf (httpMatchKvsOf c7tags) = .ok bs ∧
      c7opts.httpRule = extendRule none bs) ∧
    (∃ e, methodOptions wgen [httpMatchTag [("Method", "TRACE"), ("Path", "/t")]] =
      .error e) ∧
    "google/api/annotations.proto" ∈
      (addProtoDepG wgen "google/api/annotations.proto").pfile.dependency := by
  have hok : methodOptions wgen c7tags =
      .ok (c7opts, addProtoDepG wgen "google/api/annotations.proto") := rfl
  have h := c7_http_options wgen c7tags c7opts
    (addProtoDepG wgen "google/api/annotations.proto") [("Path", "/ping")] "TRACE" "/t"
  exact ⟨h.1 (by decide), h.2.1 hok, h.2.2.1 (by decide), h.2.2.2 hok rfl⟩

/-! ## Claim C6 -/

/-- The value specs of a CONST declaration (empty for other
declarations). -/
def constSpecsOf : Decl → List ValueSpec
  | .constDecl specs => specs
  | _ => []

/-- The single-name CONST specs of a file whose declared type is the given
enum type: the constants that become the enum's values. -/
def matchingConsts : List Decl → Nat → List ValueSpec
  | [], _ => []
  | d :: rest, enumId =>
    match d with
    | .constDecl specs =>
      (specs.filter fun vs => vs.names.length == 1 && vs.typeId == enumId) ++
        matchingConsts rest enumId
    | _ => matchingConsts rest enumId

lemma addDoc_gfileDecls (g : Generator) (t : String) (p : List Int) :
    (addDoc g t p).gfileDecls = g.gfileDecls := by
  unfold addDoc
  split <;> rfl

lemma addDoc_enumType (g : Generator) (t : String) (p : List Int) :
    (addDoc g t p).pfile.enumType = g.pfile.enumType := by
  unfold addDoc
  split <;> rfl

lemma enumValuesFromSpecs_spec (tname : String) (enumId : Nat) :
    ∀ (specs : List ValueSpec) (g : Generator) (i : Nat),
      (∀ vs ∈ specs, vs.names.length = 1) →
      (∀ vs ∈ specs, vs.typeId = enumId → ∃ vo, enumValueOptions vs.tags = .ok vo) →
      ∃ vals g1, enumValuesFromSpecs g tname enumId specs i = .ok (vals, g1) ∧
        vals.map (fun x => (x.name, x.number)) =
          (specs.filter fun vs => vs.names.length == 1 && vs.typeId == enumId).map
            (fun vs => (vs.names.headI, toInt32 vs.value)) ∧
        g1.pfile.enumType = g.pfile.enumType := by
  intro specs
  induction specs with
  | nil => intro g i _ _; exact ⟨[], g, rfl, rfl, rfl⟩
  | cons vs rest ih =>
    intro g i hshape hvo
    obtain ⟨nm, hnm⟩ := List.length_eq_one.mp (hshape vs (by simp))
    by_cases hid : vs.typeId = enumId
    · obtain ⟨vo, hvoeq⟩ := hvo vs (by simp) hid
      have hfilter :
          ((vs :: rest).filter fun x => x.names.length == 1 && x.typeId == enumId) =
            vs :: (rest.filter fun x => x.names.length == 1 && x.typeId == enumId) := by
        rw [List.filter_cons_of_pos]
        simp [hnm, hid]
      set gdoc := (if vs.doc = "" then g
        else if vs.doc.startsWith nm then
          addDoc g (tname ++ "_" ++ vs.doc) [enumPath, g.enumIndex, enumValuePath, Int.ofNat i]
        else addDoc g vs.doc [enumPath, g.enumIndex, enumValuePath, Int.ofNat i]) with hgdoc
      have hgty : gdoc.pfile.enumType = g.pfile.enumType := by
        rw [hgdoc]
        split
        · rfl
        · split <;> rw [addDoc_enumType]
      obtain ⟨vals, g1, heq, hmap, hty⟩ := ih gdoc (i + 1)
        (fun x hx => hshape x (by simp [hx]))
        (fun x hx hxid => hvo x (by simp [hx]) hxid)
      refine ⟨{ name := nm, number := toInt32 vs.value, options := some vo } :: vals, g1,
        ?_, ?_, ?_⟩
      · simp only [enumValuesFromSpecs, hnm]
        rw [if_neg (by simp [hid])]
        rw [← hgdoc]
        simp only [hvoeq, heq]
      · rw [hfilter]
        simp only [List.map_cons, hmap, hnm]
        rfl
      · rw [hty, hgty]
    · have hfilter :
          ((vs :: rest).filter fun x => x.names.length == 1 && x.typeId == enumId) =
            rest.filter fun x => x.names.length == 1 && x.typeId == enumId := by
        rw [List.filter_cons_of_neg]
        simp [hid]
      obtain ⟨vals, g1, heq, hmap, hty⟩ := ih g (i + 1)
        (fun x hx => hshape x (by simp [hx]))
        (fun x hx hxid => hvo x (by simp [hx]) hxid)
      refine ⟨vals, g1, ?_, ?_, hty⟩
      · simp only [enumValuesFromSpecs, hnm]
        rw [if_pos hid, heq]
      · rw [hfilter, hmap]

lemma enumValuesFromDecls_spec (tname : String) (enumId : Nat) :
    ∀ (decls : List Decl) (g : Generator),
      (∀ d ∈ decls, ∀ vs ∈ constSpecsOf d, vs.names.length = 1) →
      (∀ vs ∈ matchingConsts decls enumId, ∃ vo, enumValueOptions vs.tags = .ok vo) →
      ∃ vals g1, enumValuesFromDecls g tname enumId decls = .ok (vals, g1) ∧
        vals.map (fun x => (x.name, x.number)) =
          (matchingConsts decls enumId).map
            (fun vs => (vs.names.headI, toInt32 vs.value)) ∧
        g1.pfile.enumType = g.pfile.enumType := by
  intro decls
  induction decls with
  | nil => intro g _ _; exact ⟨[], g, rfl, rfl, rfl⟩
  | cons d rest ih =>
    intro g hshape hvo
    cases d with
    | constDecl specs =>
      have hsh : ∀ vs ∈ specs, vs.names.length = 1 :=
        fun vs hv => hshape (Decl.constDecl specs) (by simp) vs hv
      have hmc : matchingConsts (Decl.constDecl specs :: rest) enumId =
          (specs.filter fun vs => vs.names.length == 1 && vs.typeId == enumId) ++
            matchingConsts rest enumId := rfl
      have hvos : ∀ vs ∈ specs, vs.typeId = enumId →
          ∃ vo, enumValueOptions vs.tags = .ok vo := by
        intro vs hv hid
        apply hvo
        rw [hmc]
        apply List.mem_append_left
        rw [List.mem_filter]
        exact ⟨hv, by simp [hsh vs hv, hid]⟩
      obtain ⟨vals1, g1, heq1, hmap1, hty1⟩ :=
        enumValuesFromSpecs_spec tname enumId specs g 0 hsh hvos
      obtain ⟨vals2, g2, heq2, hmap2, hty2⟩ := ih g1
        (fun x hx vs hv => hshape x (by simp [hx]) vs hv)
        (fun vs hv => hvo vs (by rw [hmc]; exact List.mem_append_right _ hv))
      refine ⟨vals1 ++ vals2, g2, ?_, ?_, ?_⟩
      · simp only [enumValuesFromDecls, heq1, heq2]
      · rw [hmc]
        simp only [List.map_append, hmap1, hmap2]
      · rw [hty2, hty1]
    | typeDecl specs =>
      obtain ⟨vals, g1, heq, hmap, hty⟩ := ih g
        (fun x hx vs hv => hshape x (by simp [hx]) vs hv)
        (fun vs hv => hvo vs hv)
      exact ⟨vals, g1, heq, hmap, hty⟩
    | importDecl =>
      obtain ⟨vals, g1, heq, hmap, hty⟩ := ih g
        (fun x hx vs hv => hshape x (by simp [hx]) vs hv)
        (fun vs hv => hvo vs hv)
      exact ⟨vals, g1, heq, hmap, hty⟩
    | otherDecl =>
      obtain ⟨vals, g1, heq, hmap, hty⟩ := ih g
        (fun x hx vs hv => hshape x (by simp [hx]) vs hv)
        (fun vs hv => hvo vs hv)
      exact ⟨vals, g1, heq, hmap, hty⟩

/-- C6 (amended: every CONST spec in the file must declare exactly one
name and carry only supported option tags; a multi-name spec or unknown
tag makes the whole translation fail instead): the emitted enum
descriptor's values are exactly the single-name CONST specs of the file
whose declared type is the enum type, in file order, numbered with the
constants' values truncated to int32; the descriptor exists iff at least
one such constant exists, and translateDecl appends it to the file
exactly in that case. -/
theorem c6_enum_values (g : Generator) (tspec : TypeSpec) (enumId : Nat)
    (eo : EnumOptions)
    (htype : tspec.ttype = .identType enumId)
    (heo : enumOptions tspec.tags = .ok eo)
    (hshape : ∀ d ∈ g.gfileDecls, ∀ vs ∈ constSpecsOf d, vs.names.length = 1)
    (hvo : ∀ vs ∈ matchingConsts g.gfileDecls enumId,
      ∃ vo, enumValueOptions vs.tags = .ok vo) :
    ∃ res g1, convertEnum g tspec = .ok (res, g1) ∧
      (res.isSome = true ↔ matchingConsts g.gfileDecls enumId ≠ []) ∧
      (∀ e, res = some e → e.name = tspec.name ∧
        e.value.map (fun x => (x.name, x.number)) =
          (matchingConsts g.gfileDecls enumId).map
            (fun vs => (vs.names.headI, toInt32 vs.value))) ∧
      (∀ g2, translateDecl g (Decl.typeDecl [tspec]) = .ok g2 →
        g2.pfile.enumType.length =
          g.pfile.enumType.length +
            (if matchingConsts g.gfileDecls enumId = [] then 0 else 1)) := by
  have hgd := addDoc_gfileDecls g tspec.doc [enumPath, g.enumIndex]
  obtain ⟨vals, g1, heq, hmap, hty⟩ := enumValuesFromDecls_spec tspec.name enumId
    (addDoc g tspec.doc [enumPath, g.enumIndex]).gfileDecls
    (addDoc g tspec.doc [enumPath, g.enumIndex])
    (by rw [hgd]; exact hshape)
    (by rw [hgd]; exact hvo)
  rw [hgd] at hmap
  have hconv : convertEnum g tspec =
      .ok ((if vals = [] then none
            else some { name := tspec.name, options := some eo, value := vals }),
           { g1 with enumIndex := g1.enumIndex + 1 }) := by
    simp only [convertEnum, htype, heo, heq]
    split
    · rfl
    · rfl
  by_cases hnil : vals = []
  · subst hnil
    have hmcnil : matchingConsts g.gfileDecls enumId = [] := by
      have := hmap.symm
      simp only [List.map_nil] at this
      exact List.map_eq_nil.mp this
    rw [if_pos rfl] at hconv
    refine ⟨none, { g1 with enumIndex := g1.enumIndex + 1 }, hconv, ?_, ?_, ?_⟩
    · simp [hmcnil]
    · intro e he
      exact absurd he (by simp)
    · intro g2 hg2
      simp only [translateDecl, translateSpecs, htype, hconv] at hg2
      injection hg2 with hg2
      subst hg2
      simp only [hmcnil, if_pos]
      have : g1.pfile.enumType = g.pfile.enumType := by
        rw [hty, addDoc_enumType]
      simp [this]
  · rw [if_neg hnil] at hconv
    have hmcne : matchingConsts g.gfileDecls enumId ≠ [] := by
      intro hmc
      rw [hmc] at hmap
      simp only [List.map_nil] at hmap
      exact hnil (List.map_eq_nil.mp hmap)
    refine ⟨some { name := tspec.name, options := some eo, value := vals },
      { g1 with enumIndex := g1.enumIndex + 1 }, hconv, ?_, ?_, ?_⟩
    · simp [hmcne]
    · intro e he
      injection he with he
      subst he
      exact ⟨rfl, hmap⟩
    · intro g2 hg2
      simp only [translateDecl, translateSpecs, htype, hconv] at hg2
      injection hg2 with hg2
      subst hg2
      rw [if_neg hmcne]
      have hg1ty : g1.pfile.enumType = g.pfile.enumType := by
        rw [hty, addDoc_enumType]
      simp [hg1ty]

/-- The enum TYPE spec of the C6 examples (type identity 7). -/
def c6espec : TypeSpec := { name := "E", ttype := .identType 7 }

def c6EA : ValueSpec := { names := ["EA"], typeId := 7, value := 0 }
def c6X : ValueSpec := { names := ["X"], typeId := 9, value := 3 }
def c6EB : ValueSpec := { names := ["EB"], typeId := 7, value := 5 }

/-- A file with the enum declaration, a matching single-name constant and
a multi-name constant spec of an unrelated type. -/
def c6badGen : Generator :=
  { wgen with gfileDecls := [
      .typeDecl [c6espec], .constDecl [c6EA],
      .constDecl [{ names := ["A", "B"], typeId := 9, value := 0 }] ] }

/-- C6, counterexample: a single-name constant of the enum type exists,
so the claim demands the enum descriptor to be present — but the file
also holds a multi-name CONST spec of an unrelated type, and convertEnum
(and hence the whole declaration translation) fails with an error
instead of emitting the descriptor. -/
theorem c6_counterexample :
    matchingConsts c6badGen.gfileDecls 7 ≠ [] ∧
    convertEnum c6badGen c6espec = .error "need all value specs to define one name" ∧
    translateDecl c6badGen (.typeDecl [c6espec]) =
      .error "need all value specs to define one name" :=
  ⟨by decide, rfl, rfl⟩

/-- A file with the enum declaration and well-shaped constants: EA and EB
of the enum type, X of another type. -/
def c6okGen : Generator :=
  { wgen with gfileDecls := [
      .typeDecl [c6espec], .constDecl [c6EA, c6X], .constDecl [c6EB] ] }

/-- C6, witness: the amended theorem at the concrete file above. -/
theorem c6_witness :
    c6espec.ttype = .identType 7 ∧
    enumOptions c6espec.tags = .ok (setDefaultsEnum {}) ∧
    (∃ res g1, convertEnum c6okGen c6espec = .ok (res, g1) ∧
      (res.isSome = true ↔ matchingConsts c6okGen.gfileDecls 7 ≠ []) ∧
      (∀ e, res = some e → e.name = c6espec.name ∧
        e.value.map (fun x => (x.name, x.number)) =
          (matchingConsts c6okGen.gfileDecls 7).map
            (fun vs => (vs.names.headI, toInt32 vs.value))) ∧
      (∀ g2, translateDecl c6okGen (Decl.typeDecl [c6espec]) = .ok g2 →
        g2.pfile.enumType.length =
          c6okGen.pfile.enumType.length +
            (if matchingConsts c6okGen.gfileDecls 7 = [] then 0 else 1))) := by
  refine ⟨rfl, rfl, ?_⟩
  apply c6_enum_values c6okGen c6espec 7 (setDefaultsEnum {}) rfl rfl
  · decide
  · intro vs hv
    rw [show matchingConsts c6okGen.gfileDecls 7 = [c6EA, c6EB] from rfl] at hv
    simp only [List.mem_cons, List.mem_singleton, List.not_mem_nil, or_false] at hv
    rcases hv with rfl | rfl
    · exact ⟨setDefaultsEnumValue {}, rfl⟩
    · exact ⟨setDefaultsEnumValue {}, rfl⟩

/-! ## Claim C2 -/

lemma okQuad {ty lb ty' lb' : Nat} {nm nm' : String} {g g' : Generator}
    (h : (Except.ok (ty, lb, nm, g) : Except String (Nat × Nat × String × Generator)) =
      .ok (ty', lb', nm', g')) :
    ty = ty' ∧ lb = lb' ∧ nm = nm' ∧ g = g' := by
  injection h with h
  exact ⟨congrArg (fun x => x.1) h, congrArg (fun x => x.2.1) h,
         congrArg (fun x => x.2.2.1) h, congrArg (fun x => x.2.2.2) h⟩

lemma addDoc_curPkg (g : Generator) (t : String) (p : List Int) :
    (addDoc g t p).curPkg = g.curPkg := by
  unfold addDoc
  split <;> rfl

lemma addDoc_gunkPkgs (g : Generator) (t : String) (p : List Int) :
    (addDoc g t p).gunkPkgs = g.gunkPkgs := by
  unfold addDoc
  split <;> rfl

/-- convertType only accumulates used imports and proto deps: the current
package and the package table come through unchanged. -/
lemma convertType_ok_ctx :
    ∀ (t : GoType) (g : Generator) (ty lb : Nat) (nm : String) (g1 : Generator),
      convertType g t = .ok (ty, lb, nm, g1) →
      g1.curPkg = g.curPkg ∧ g1.gunkPkgs = g.gunkPkgs := by
  intro t
  induction t with
  | basic k =>
    intro g ty lb nm g1 h
    cases k <;>
      · simp only [convertType] at h
        obtain ⟨-, -, -, h4⟩ := okQuad h
        rw [← h4]
        exact ⟨rfl, rfl⟩
  | chanOf elem ih =>
    intro g ty lb nm g1 h
    exact ih g ty lb nm g1 h
  | named n =>
    intro g ty lb nm g1 h
    simp only [convertType] at h
    by_cases h1 : n.fullString = "time.Time"
    · rw [if_pos h1] at h
      obtain ⟨-, -, -, h4⟩ := okQuad h
      rw [← h4]
      exact ⟨rfl, rfl⟩
    · rw [if_neg h1] at h
      by_cases h2 : n.fullString = "time.Duration"
      · rw [if_pos h2] at h
        obtain ⟨-, -, -, h4⟩ := okQuad h
        rw [← h4]
        exact ⟨rfl, rfl⟩
      · rw [if_neg h2] at h
        cases hq : qualifiedTypeName g n.objName (some n.pkgPath) with
        | error e =>
          simp only [hq] at h
          exact absurd h (by simp)
        | ok fullName =>
          simp only [hq] at h
          cases hu : n.underlying with
          | basicU k =>
            simp only [hu] at h
            cases k <;>
              · obtain ⟨-, -, -, h4⟩ := okQuad h
                rw [← h4]
                exact ⟨rfl, rfl⟩
          | structU =>
            simp only [hu] at h
            obtain ⟨-, -, -, h4⟩ := okQuad h
            rw [← h4]
            exact ⟨rfl, rfl⟩
          | otherU =>
            simp only [hu] at h
            obtain ⟨-, -, -, h4⟩ := okQuad h
            rw [← h4]
            exact ⟨rfl, rfl⟩
  | sliceOf elem ih =>
    intro g ty lb nm g1 h
    simp only [convertType] at h
    by_cases hb : elem = GoType.basic BasicKind.bByte
    · rw [if_pos hb] at h
      obtain ⟨-, -, -, h4⟩ := okQuad h
      rw [← h4]
      exact ⟨rfl, rfl⟩
    · rw [if_neg hb] at h
      cases hc : convertType g elem with
      | error e =>
        simp only [hc] at h
        exact absurd h (by simp)
      | ok r =>
        obtain ⟨d, l, nm2, g2⟩ := r
        simp only [hc] at h
        by_cases hd : d = 0
        · rw [if_pos hd] at h
          obtain ⟨-, -, -, h4⟩ := okQuad h
          rw [← h4]
          exact ih g d l nm2 g2 hc
        · rw [if_neg hd] at h
          obtain ⟨-, -, -, h4⟩ := okQuad h
          rw [← h4]
          exact ih g d l nm2 g2 hc
  | mapOf k v ihk ihv =>
    intro g ty lb nm g1 h
    simp only [convertType] at h
    obtain ⟨-, -, -, h4⟩ := okQuad h
    rw [← h4]
    exact ⟨rfl, rfl⟩
  | otherType =>
    intro g ty lb nm g1 h
    simp only [convertType] at h
    obtain ⟨-, -, -, h4⟩ := okQuad h
    rw [← h4]
    exact ⟨rfl, rfl⟩

lemma triple_ok_exists {g : Generator} {t : GoType} {ty lb : Nat} {nm : String}
    (h : convertTypeTriple g t = .ok (ty, lb, nm)) :
    ∃ g1, convertType g t = .ok (ty, lb, nm, g1) := by
  unfold convertTypeTriple at h
  cases hc : convertType g t with
  | error e =>
    simp only [hc] at h
    exact absurd h (by simp)
  | ok r =>
    obtain ⟨a, b, c, g1⟩ := r
    simp only [hc] at h
    injection h with h
    have h1 := congrArg (fun x => x.1) h
    have h2 := congrArg (fun x => x.2.1) h
    have h3 := congrArg (fun x => x.2.2) h
    simp only at h1 h2 h3
    subst h1
    subst h2
    subst h3
    exact ⟨g1, rfl⟩

/-- The converter classifies `t` with the given triple at every generator
sharing the current package and the package table (the only components
the value of the triple depends on). -/
def ClassifiesAs (g : Generator) (t : GoType) (ty lb : Nat) (nm : String) : Prop :=
  ∀ g', g'.curPkg = g.curPkg → g'.gunkPkgs = g.gunkPkgs →
    convertTypeTriple g' t = .ok (ty, lb, nm)

lemma classifiesAs_congr {g g2 : Generator} {t : GoType} {ty lb : Nat} {nm : String}
    (h : ClassifiesAs g t ty lb nm)
    (h1 : g2.curPkg = g.curPkg) (h2 : g2.gunkPkgs = g.gunkPkgs) :
    ClassifiesAs g2 t ty lb nm :=
  fun g' hh1 hh2 => h g' (hh1.trans h1) (hh2.trans h2)

/-- The synthesized map-entry descriptor for a field named `fn` whose key
and value convert to the given types. -/
def mapEntryFor (fn : String) (kt : Nat) (kn : String) (vt : Nat) (vn : String) :
    NestedDescriptorProto :=
  { name := fn ++ "Entry"
    options := some { mapEntry := some true }
    field := [
      { name := "key", number := 1, typeName := protoStringOrNil kn, typ := kt,
        label := LABEL_OPTIONAL, jsonName := none, options := none },
      { name := "value", number := 2, typeName := protoStringOrNil vn, typ := vt,
        label := LABEL_OPTIONAL, jsonName := none, options := none }] }

/-- The qualified type name of the synthesized map entry. -/
def mapEntryTypeName (protoName parent fn : String) : String :=
  "." ++ protoName ++ "." ++ (parent ++ "." ++ (fn ++ "Entry"))

lemma convertMap_classifiable {g : Generator} {parent fn : String} {k v : GoType}
    {kt kl : Nat} {kn : String} {vt vl : Nat} {vn : String}
    (hk : ClassifiesAs g k kt kl kn) (hkne : kt ≠ 0)
    (hv : ClassifiesAs g v vt vl vn) (hvne : vt ≠ 0) :
    ∃ g2, convertMap g parent fn k v =
        .ok (mapEntryTypeName g.curPkg.protoName parent fn,
             some (mapEntryFor fn kt kn vt vn), g2) ∧
      g2.curPkg = g.curPkg ∧ g2.gunkPkgs = g.gunkPkgs := by
  obtain ⟨gk, hgk⟩ := triple_ok_exists (hk g rfl rfl)
  obtain ⟨hc1, hc2⟩ := convertType_ok_ctx k g kt kl kn gk hgk
  obtain ⟨gv, hgv⟩ := triple_ok_exists (hv gk hc1 hc2)
  obtain ⟨hd1, hd2⟩ := convertType_ok_ctx v gk vt vl vn gv hgv
  refine ⟨gv, ?_, hd1.trans hc1, hd2.trans hc2⟩
  simp only [convertMap, qualifiedTypeName, hgk, hgv]
  rw [if_neg hkne, if_neg hvne]
  rfl

lemma convertMap_entry_name {g : Generator} {parent fn : String} {k v : GoType}
    {tn : String} {nd : NestedDescriptorProto} {g1 : Generator}
    (h : convertMap g parent fn k v = .ok (tn, some nd, g1)) :
    nd.name = fn ++ "Entry" := by
  simp only [convertMap, qualifiedTypeName] at h
  cases hk : convertType g k with
  | error e =>
    simp only [hk] at h
    exact absurd h (by simp)
  | ok r =>
    obtain ⟨kt, kl, kn, gk⟩ := r
    simp only [hk] at h
    by_cases hkt : kt = 0
    · rw [if_pos hkt] at h
      exact absurd h (by simp)
    · rw [if_neg hkt] at h
      cases hv : convertType gk v with
      | error e =>
        simp only [hv] at h
        exact absurd h (by simp)
      | ok r2 =>
        obtain ⟨vt, vl, vn, gv⟩ := r2
        simp only [hv] at h
        by_cases hvt : vt = 0
        · rw [if_pos hvt] at h
          exact absurd h (by simp)
        · rw [if_neg hvt] at h
          injection h with h
          have h2 := congrArg (fun x => x.2.1) h
          simp only at h2
          injection h2 with h2
          rw [← h2]

lemma convertMap_ok_ctx {g : Generator} {parent fn : String} {k v : GoType}
    {tn : String} {ond : Option NestedDescriptorProto} {g1 : Generator}
    (h : convertMap g parent fn k v = .ok (tn, ond, g1)) :
    g1.curPkg = g.curPkg ∧ g1.gunkPkgs = g.gunkPkgs := by
  simp only [convertMap, qualifiedTypeName] at h
  cases hk : convertType g k with
  | error e =>
    simp only [hk] at h
    exact absurd h (by simp)
  | ok r =>
    obtain ⟨kt, kl, kn, gk⟩ := r
    simp only [hk] at h
    obtain ⟨hc1, hc2⟩ := convertType_ok_ctx k g kt kl kn gk hk
    by_cases hkt : kt = 0
    · rw [if_pos hkt] at h
      injection h with h
      have h3 := congrArg (fun x => x.2.2) h
      simp only at h3
      rw [← h3]
      exact ⟨hc1, hc2⟩
    · rw [if_neg hkt] at h
      cases hv : convertType gk v with
      | error e =>
        simp only [hv] at h
        exact absurd h (by simp)
      | ok r2 =>
        obtain ⟨vt, vl, vn, gv⟩ := r2
        simp only [hv] at h
        obtain ⟨hd1, hd2⟩ := convertType_ok_ctx v gk vt vl vn gv hv
        by_cases hvt : vt = 0
        · rw [if_pos hvt] at h
          injection h with h
          have h3 := congrArg (fun x => x.2.2) h
          simp only at h3
          rw [← h3]
          exact ⟨hd1.trans hc1, hd2.trans hc2⟩
        · rw [if_neg hvt] at h
          injection h with h
          have h3 := congrArg (fun x => x.2.2) h
          simp only at h3
          rw [← h3]
          exact ⟨hd1.trans hc1, hd2.trans hc2⟩

lemma append_entry_ne {a b : String} (h : a ≠ b) : a ++ "Entry" ≠ b ++ "Entry" := by
  intro hh
  apply h
  have h2 := congrArg String.data hh
  simp only [String.data_append] at h2
  have h3 := List.append_cancel_right h2
  cases a
  cases b
  simp_all

lemma okQuint {α β γ δ ε : Type} {a a' : α} {b b' : β} {c c' : γ} {d d' : δ} {e e' : ε}
    (h : (Except.ok (a, b, c, d, e) : Except String (α × β × γ × δ × ε)) =
      .ok (a', b', c', d', e')) :
    a = a' ∧ b = b' ∧ c = c' ∧ d = d' ∧ e = e' := by
  injection h with h
  exact ⟨congrArg (fun x => x.1) h, congrArg (fun x => x.2.1) h,
         congrArg (fun x => x.2.2.1) h, congrArg (fun x => x.2.2.2.1) h,
         congrArg (fun x => x.2.2.2.2) h⟩

/-- Does this (possibly nil) nested descriptor carry the given name? -/
def isEntryNamed (nm : String) : Option NestedDescriptorProto → Bool
  | some nd => nd.name == nm
  | none => false

lemma mapEntryTypeName_ne_empty (p a f : String) : mapEntryTypeName p a f ≠ "" := by
  intro h
  have h2 := congrArg String.length h
  simp only [mapEntryTypeName, String.length_append] at h2
  have h3 : ("." : String).length = 1 := rfl
  have h4 : ("" : String).length = 0 := rfl
  rw [h3, h4] at h2
  omega

lemma protoStringOrNil_mapEntry (p a f : String) :
    protoStringOrNil (mapEntryTypeName p a f) = some (mapEntryTypeName p a f) := by
  rw [protoStringOrNil, if_neg (mapEntryTypeName_ne_empty p a f)]

/-- What an accepted convertFieldType call tells us: the context survives,
a nested contribution can only come from a map type, and a map type always
produces a nested contribution together with the MESSAGE/REPEATED pair. -/
lemma convertFieldType_spec {t : GoType} {g : Generator} {parent fieldName : String}
    {pt pl : Nat} {tn : String} {contrib : Option (Option NestedDescriptorProto)}
    {gm : Generator}
    (h : convertFieldType g parent fieldName t = .ok (pt, pl, tn, contrib, gm)) :
    (gm.curPkg = g.curPkg ∧ gm.gunkPkgs = g.gunkPkgs) ∧
    (∀ nt, contrib = some nt → ∃ kk vv, t = .mapOf kk vv ∧
      convertMap g parent fieldName kk vv = .ok (tn, nt, gm)) ∧
    (∀ kk vv, t = .mapOf kk vv → ∃ nt, contrib = some nt ∧
      convertMap g parent fieldName kk vv = .ok (tn, nt, gm) ∧
      pt = TYPE_MESSAGE ∧ pl = LABEL_REPEATED) := by
  simp only [convertFieldType] at h
  split at h
  · next kk vv =>
    cases hm : convertMap g parent fieldName kk vv with
    | error e =>
      simp only [hm] at h
      exact absurd h (by simp)
    | ok r =>
      obtain ⟨tname, nested, gmm⟩ := r
      simp only [hm] at h
      obtain ⟨h1, h2, h3, h4, h5⟩ := okQuint h
      subst h3
      subst h5
      refine ⟨convertMap_ok_ctx hm, ?_, ?_⟩
      · intro nt hnt
        rw [← h4] at hnt
        injection hnt with hnt
        exact ⟨kk, vv, rfl, hnt ▸ hm⟩
      · intro kk2 vv2 hmap
        injection hmap with e1 e2
        subst e1
        subst e2
        exact ⟨nested, h4.symm, hm, h1.symm, h2.symm⟩
  · next hne =>
    cases hc : convertType g t with
    | error e =>
      simp only [hc] at h
      exact absurd h (by simp)
    | ok r =>
      obtain ⟨a, b, c, gg⟩ := r
      simp only [hc] at h
      obtain ⟨h1, h2, h3, h4, h5⟩ := okQuint h
      subst h1
      subst h2
      subst h3
      subst h5
      refine ⟨convertType_ok_ctx _ _ _ _ _ _ hc, ?_, ?_⟩
      · intro nt hnt
        rw [← h4] at hnt
        exact absurd hnt (by simp)
      · intro kk vv hmap
        exact absurd hmap (hne kk vv)

/-- What an accepted convertField call tells us: the field has exactly one
name, which becomes the descriptor's name; the context survives; a nested
contribution pins a convertMap call on the doc-annotated state, and a map
type forces one, fixing the descriptor's type, label and type name. -/
lemma convertField_spec {g : Generator} {parent : String} {field : StructField} {i : Nat}
    {fd : FieldDescriptorProto} {contrib : Option (Option NestedDescriptorProto)}
    {g2 : Generator}
    (h : convertField g parent field i = .ok (fd, contrib, g2)) :
    ∃ fieldName, field.names = [fieldName] ∧ fd.name = fieldName ∧
      g2.curPkg = g.curPkg ∧ g2.gunkPkgs = g.gunkPkgs ∧
      (∀ nt, contrib = some nt → ∃ kk vv tn, field.typ = .mapOf kk vv ∧
        convertMap (addDoc g field.doc [messagePath, g.messageIndex, messageFieldPath,
            Int.ofNat i]) parent fieldName kk vv = .ok (tn, nt, g2)) ∧
      (∀ kk vv, field.typ = .mapOf kk vv → ∃ nt tn, contrib = some nt ∧
        convertMap (addDoc g field.doc [messagePath, g.messageIndex, messageFieldPath,
            Int.ofNat i]) parent fieldName kk vv = .ok (tn, nt, g2) ∧
        fd.typ = TYPE_MESSAGE ∧ fd.label = LABEL_REPEATED ∧
        fd.typeName = protoStringOrNil tn) := by
  rcases hns : field.names with _ | ⟨a, _ | ⟨b, tl⟩⟩
  · simp only [convertField, hns] at h
    exact absurd h (by simp)
  case cons.nil =>
    simp only [convertField, hns] at h
    cases hcv : convertFieldType
        (addDoc g field.doc [messagePath, g.messageIndex, messageFieldPath, Int.ofNat i])
        parent a field.typ with
    | error e =>
      simp only [hcv] at h
      exact absurd h (by simp)
    | ok r =>
      obtain ⟨pt, pl, tn, contrib0, gm⟩ := r
      simp only [hcv] at h
      by_cases hpt : pt = 0
      · rw [if_pos hpt] at h
        exact absurd h (by simp)
      · rw [if_neg hpt] at h
        cases htg : field.tag with
        | none =>
          simp only [htg] at h
          exact absurd h (by simp)
        | some tag =>
          simp only [htg] at h
          cases hpn : protoNumber tag with
          | error e =>
            simp only [hpn] at h
            exact absurd h (by simp)
          | ok num =>
            simp only [hpn] at h
            cases hfo : fieldOptions field with
            | error e =>
              simp only [hfo] at h
              exact absurd h (by simp)
            | ok fo =>
              simp only [hfo] at h
              injection h with h
              have h1 := congrArg (fun x => x.1) h
              have h2 := congrArg (fun x => x.2.1) h
              have h3 := congrArg (fun x => x.2.2) h
              simp only at h1 h2 h3
              subst h1
              subst h2
              subst h3
              obtain ⟨⟨hc1, hc2⟩, hdir1, hdir2⟩ := convertFieldType_spec hcv
              refine ⟨a, rfl, rfl, hc1.trans (addDoc_curPkg _ _ _),
                      hc2.trans (addDoc_gunkPkgs _ _ _), ?_, ?_⟩
              · intro nt hnt
                obtain ⟨kk, vv, hmap, hm⟩ := hdir1 nt hnt
                exact ⟨kk, vv, tn, hmap, hm⟩
              · intro kk vv hmap
                obtain ⟨nt, hnt, hm, hptm, hplr⟩ := hdir2 kk vv hmap
                exact ⟨nt, tn, hnt, hm, hptm, hplr, rfl⟩
  case cons.cons =>
    simp only [convertField, hns] at h
    exact absurd h (by simp)

/-- A run of the field loop over fields none of which is named `fn`
produces no nested entry named `fn ++ "Entry"`: every contribution comes
from some other field's convertMap call, whose entry carries that other
field's name. -/
lemma convertFields_no_entry {fn : String} :
    ∀ (fs : List StructField) (g : Generator) (parent : String) (i : Nat)
      (fds : List FieldDescriptorProto) (nts : List (Option NestedDescriptorProto))
      (g3 : Generator),
      convertFields g parent fs i = .ok (fds, nts, g3) →
      (∀ f ∈ fs, fn ∉ f.names) →
      nts.filter (isEntryNamed (fn ++ "Entry")) = [] := by
  intro fs
  induction fs with
  | nil =>
    intro g parent i fds nts g3 h _
    simp only [convertFields] at h
    injection h with h
    have h2 := congrArg (fun x => x.2.1) h
    simp only at h2
    rw [← h2]
    rfl
  | cons field rest ih =>
    intro g parent i fds nts g3 h hmem
    simp only [convertFields] at h
    cases hcf : convertField g parent field i with
    | error e =>
      simp only [hcf] at h
      exact absurd h (by simp)
    | ok r =>
      obtain ⟨fd, contrib, g2⟩ := r
      simp only [hcf] at h
      cases hcr : convertFields g2 parent rest (i + 1) with
      | error e =>
        simp only [hcr] at h
        exact absurd h (by simp)
      | ok r2 =>
        obtain ⟨fds2, nts2, g4⟩ := r2
        simp only [hcr] at h
        have hrest := ih g2 parent (i + 1) fds2 nts2 g4 hcr
          (fun f hf => hmem f (List.mem_cons_of_mem _ hf))
        cases hco : contrib with
        | none =>
          simp only [hco] at h
          injection h with h
          have h2 := congrArg (fun x => x.2.1) h
          simp only at h2
          rw [← h2]
          exact hrest
        | some nt =>
          simp only [hco] at h
          injection h with h
          have h2 := congrArg (fun x => x.2.1) h
          simp only at h2
          rw [← h2]
          obtain ⟨fieldName, hfnames, -, -, -, hdir1, -⟩ := convertField_spec hcf
          obtain ⟨kk, vv, tn, -, hm⟩ := hdir1 nt hco
          have hnotfn : fieldName ≠ fn := by
            intro hh
            apply hmem field (List.mem_cons_self _ _)
            rw [hfnames, hh]
            exact List.mem_singleton_self _
          have hskip : isEntryNamed (fn ++ "Entry") nt = false := by
            cases nt with
            | none => rfl
            | some nd =>
              have hname := convertMap_entry_name hm
              simp only [isEntryNamed, hname]
              exact beq_false_of_ne (append_entry_ne hnotfn)
          simp [List.filter_cons, hskip, hrest]

/-- The field loop on a field list whose j-th member is the only field
named `fn` and has map type: the nested contributions carry exactly one
entry named `fn ++ "Entry"` — the synthesized map entry — and the field
descriptors carry a matching MESSAGE/REPEATED field named `fn` whose type
name points at it. -/
lemma convertFields_entry {fn : String} {k v : GoType} {kt kl : Nat} {kn : String}
    {vt vl : Nat} {vn : String} (hkne : kt ≠ 0) (hvne : vt ≠ 0) :
    ∀ (fs : List StructField) (g : Generator) (parent : String) (i j : Nat)
      (hj : j < fs.length)
      (fds : List FieldDescriptorProto) (nts : List (Option NestedDescriptorProto))
      (g3 : Generator),
      convertFields g parent fs i = .ok (fds, nts, g3) →
      (fs.get ⟨j, hj⟩).names = [fn] →
      (fs.get ⟨j, hj⟩).typ = .mapOf k v →
      (∀ l (hl : l < fs.length), l ≠ j → fn ∉ (fs.get ⟨l, hl⟩).names) →
      ClassifiesAs g k kt kl kn →
      ClassifiesAs g v vt vl vn →
      nts.filter (isEntryNamed (fn ++ "Entry")) = [some (mapEntryFor fn kt kn vt vn)] ∧
      ∃ fd, fd ∈ fds ∧ fd.name = fn ∧ fd.typ = TYPE_MESSAGE ∧ fd.label = LABEL_REPEATED ∧
        fd.typeName = some (mapEntryTypeName g.curPkg.protoName parent fn) := by
  intro fs
  induction fs with
  | nil =>
    intro g parent i j hj
    exact absurd hj (by simp)
  | cons field rest ih =>
    intro g parent i j hj fds nts g3 h hnames htyp hdup hk hv
    simp only [convertFields] at h
    cases hcf : convertField g parent field i with
    | error e =>
      simp only [hcf] at h
      exact absurd h (by simp)
    | ok r =>
      obtain ⟨fd, contrib, g2⟩ := r
      simp only [hcf] at h
      cases hcr : convertFields g2 parent rest (i + 1) with
      | error e =>
        simp only [hcr] at h
        exact absurd h (by simp)
      | ok r2 =>
        obtain ⟨fds2, nts2, g4⟩ := r2
        simp only [hcr] at h
        obtain ⟨fieldName, hfnames, hfdname, hctx1, hctx2, hdir1, hdir2⟩ :=
          convertField_spec hcf
        cases j with
        | zero =>
          have hnames0 : field.names = [fn] := hnames
          have htyp0 : field.typ = GoType.mapOf k v := htyp
          have hfe : fieldName = fn := by
            simpa using hfnames.symm.trans hnames0
          rw [hfe] at hfnames hfdname hdir1 hdir2
          obtain ⟨nt, tn, hcontrib, hcm, hfdt, hfdl, hfdtn⟩ := hdir2 k v htyp0
          have hkd : ClassifiesAs
              (addDoc g field.doc [messagePath, g.messageIndex, messageFieldPath,
                Int.ofNat i]) k kt kl kn :=
            classifiesAs_congr hk (addDoc_curPkg _ _ _) (addDoc_gunkPkgs _ _ _)
          have hvd : ClassifiesAs
              (addDoc g field.doc [messagePath, g.messageIndex, messageFieldPath,
                Int.ofNat i]) v vt vl vn :=
            classifiesAs_congr hv (addDoc_curPkg _ _ _) (addDoc_gunkPkgs _ _ _)
          obtain ⟨gm2, hcm2, -, -⟩ := convertMap_classifiable hkd hkne hvd hvne
          have hpin := hcm.symm.trans hcm2
          injection hpin with hpin
          have hp1 := congrArg (fun x => x.1) hpin
          have hp2 := congrArg (fun x => x.2.1) hpin
          simp only at hp1 hp2
          rw [addDoc_curPkg] at hp1
          subst hp2
          simp only [hcontrib] at h
          injection h with h
          have h1 := congrArg (fun x => x.1) h
          have h2 := congrArg (fun x => x.2.1) h
          simp only at h1 h2
          have hnone : ∀ f ∈ rest, fn ∉ f.names := by
            intro f hf
            obtain ⟨⟨l, hl⟩, hgl⟩ := List.mem_iff_get.mp hf
            have hd := hdup (l + 1) (Nat.succ_lt_succ hl) (Nat.succ_ne_zero l)
            rw [show ((field :: rest).get ⟨l + 1, Nat.succ_lt_succ hl⟩) =
                rest.get ⟨l, hl⟩ from rfl] at hd
            rw [hgl] at hd
            exact hd
          have hfilter2 := convertFields_no_entry rest g2 parent (i + 1) fds2 nts2 g4
            hcr hnone
          constructor
          · rw [← h2]
            simp [List.filter_cons, isEntryNamed, mapEntryFor, hfilter2]
          · refine ⟨fd, ?_, hfdname, hfdt, hfdl, ?_⟩
            · rw [← h1]
              exact List.mem_cons_self _ _
            · rw [hfdtn, hp1, protoStringOrNil_mapEntry]
        | succ j2 =>
          have hj2 : j2 < rest.length := Nat.lt_of_succ_lt_succ hj
          have hnames2 : (rest.get ⟨j2, hj2⟩).names = [fn] := hnames
          have htyp2 : (rest.get ⟨j2, hj2⟩).typ = GoType.mapOf k v := htyp
          have hdup2 : ∀ l (hl : l < rest.length), l ≠ j2 →
              fn ∉ (rest.get ⟨l, hl⟩).names := by
            intro l hl hlj
            exact hdup (l + 1) (Nat.succ_lt_succ hl)
              (fun hh => hlj (Nat.succ_injective hh))
          have hk2 : ClassifiesAs g2 k kt kl kn := classifiesAs_congr hk hctx1 hctx2
          have hv2 : ClassifiesAs g2 v vt vl vn := classifiesAs_congr hv hctx1 hctx2
          obtain ⟨hfilter, fd2, hfd2mem, hfd2n, hfd2t, hfd2l, hfd2tn⟩ :=
            ih g2 parent (i + 1) j2 hj2 fds2 nts2 g4 hcr hnames2 htyp2 hdup2 hk2 hv2
          rw [hctx1] at hfd2tn
          have hheadnot : fn ∉ field.names :=
            hdup 0 (Nat.succ_pos _) (Nat.succ_ne_zero j2).symm
          have hnotfn : fieldName ≠ fn := by
            intro hh
            apply hheadnot
            rw [hfnames, hh]
            exact List.mem_singleton_self _
          cases hco : contrib with
          | none =>
            simp only [hco] at h
            injection h with h
            have h1 := congrArg (fun x => x.1) h
            have h2 := congrArg (fun x => x.2.1) h
            simp only at h1 h2
            refine ⟨by rw [← h2]; exact hfilter, fd2, ?_, hfd2n, hfd2t, hfd2l, hfd2tn⟩
            rw [← h1]
            exact List.mem_cons_of_mem _ hfd2mem
          | some nt =>
            simp only [hco] at h
            injection h with h
            have h1 := congrArg (fun x => x.1) h
            have h2 := congrArg (fun x => x.2.1) h
            simp only at h1 h2
            obtain ⟨kk, vv, tn, -, hm⟩ := hdir1 nt hco
            have hskip : isEntryNamed (fn ++ "Entry") nt = false := by
              cases nt with
              | none => rfl
              | some nd =>
                have hname := convertMap_entry_name hm
                simp only [isEntryNamed, hname]
                exact beq_false_of_ne (append_entry_ne hnotfn)
            refine ⟨?_, fd2, ?_, hfd2n, hfd2t, hfd2l, hfd2tn⟩
            · rw [← h2]
              simp [List.filter_cons, hskip, hfilter]
            · rw [← h1]
              exact List.mem_cons_of_mem _ hfd2mem

/-- C2: for every struct field of map type map[K]V with classifiable K and
V (and no other field sharing its name), the translated message contains
exactly one nested descriptor named `<FieldName>Entry` — the synthesized
map entry, whose options carry map_entry=true and whose fields are exactly
`key` at number 1 and `value` at number 2, both OPTIONAL — and the map
field itself has type MESSAGE, label REPEATED, and a type name pointing at
that nested entry message. -/
theorem c2_map_entry (g : Generator) (tspec : TypeSpec) (fields : List StructField)
    (j : Nat) (hj : j < fields.length) (fn : String) (k v : GoType)
    (kt kl : Nat) (kn : String) (vt vl : Nat) (vn : String)
    (msg : DescriptorProto) (g' : Generator)
    (htype : tspec.ttype = .structType fields)
    (hnames : (fields.get ⟨j, hj⟩).names = [fn])
    (htyp : (fields.get ⟨j, hj⟩).typ = .mapOf k v)
    (hdup : ∀ l (hl : l < fields.length), l ≠ j → fn ∉ (fields.get ⟨l, hl⟩).names)
    (hk : ClassifiesAs g k kt kl kn) (hkne : kt ≠ 0)
    (hv : ClassifiesAs g v vt vl vn) (hvne : vt ≠ 0)
    (hok : convertMessage g tspec = .ok (msg, g')) :
    msg.nestedType.filter (isEntryNamed (fn ++ "Entry")) =
      [some (mapEntryFor fn kt kn vt vn)] ∧
    ∃ fd, fd ∈ msg.field ∧ fd.name = fn ∧ fd.typ = TYPE_MESSAGE ∧
      fd.label = LABEL_REPEATED ∧
      fd.typeName = some (mapEntryTypeName g.curPkg.protoName tspec.name fn) := by
  simp only [convertMessage, htype] at hok
  split at hok
  · exact absurd hok (by simp)
  · split at hok
    · exact absurd hok (by simp)
    · next fds nts g1 heq =>
      injection hok with hok
      have hm1 := congrArg (fun x => x.1) hok
      simp only at hm1
      obtain ⟨hfilter, fd, hmem, hname, htm, hlr, htn⟩ :=
        convertFields_entry hkne hvne fields _ tspec.name 0 j hj fds nts g1 heq
          hnames htyp hdup
          (classifiesAs_congr hk (addDoc_curPkg _ _ _) (addDoc_gunkPkgs _ _ _))
          (classifiesAs_congr hv (addDoc_curPkg _ _ _) (addDoc_gunkPkgs _ _ _))
      rw [addDoc_curPkg] at htn
      rw [← hm1]
      exact ⟨hfilter, fd, hmem, hname, htm, hlr, htn⟩

/-- The concrete field list of the C2 witness: a lone map field
`Items map[string]int32` tagged `pb:"1" json:"items"`. -/
def c2fields : List StructField :=
  [{ names := ["Items"]
     typ := .mapOf (.basic .bString) (.basic .bInt32)
     tag := some { pb := some 1, json := some "items" } }]

/-- A struct type `Dict` holding the single map field. -/
def c2spec : TypeSpec := { name := "Dict", ttype := .structType c2fields }

/-- The message descriptor convertMessage produces for `c2spec` at `wgen`. -/
def c2msg : DescriptorProto :=
  { name := "Dict"
    options := some { messageSetWireFormat := some false
                      noStandardDescriptorAccessor := some false
                      deprecated := some false
                      mapEntry := some false }
    field := [{ name := "Items"
                number := 1
                typeName := some ".pkg.Dict.ItemsEntry"
                typ := 11
                label := 3
                jsonName := some "items"
                options := some { packed := some false
                                  lazy := some false
                                  deprecated := some false
                                  ctype := some 0
                                  jstype := some 0 } }]
    nestedType := [some { name := "ItemsEntry"
                          options := some { mapEntry := some true }
                          field := [
                            { name := "key"
                              number := 1
                              typeName := none
                              typ := 9
                              label := 1
                              jsonName := none
                              options := none },
                            { name := "value"
                              number := 2
                              typeName := none
                              typ := 5
                              label := 1
                              jsonName := none
                              options := none }] }] }

theorem c2_witness :
    c2msg.nestedType.filter (isEntryNamed ("Items" ++ "Entry")) =
      [some (mapEntryFor "Items" TYPE_STRING "" TYPE_INT32 "")] ∧
    ∃ fd, fd ∈ c2msg.field ∧ fd.name = "Items" ∧ fd.typ = TYPE_MESSAGE ∧
      fd.label = LABEL_REPEATED ∧
      fd.typeName = some (mapEntryTypeName wgen.curPkg.protoName c2spec.name "Items") :=
  c2_map_entry wgen c2spec c2fields 0 (by decide) "Items"
    (.basic .bString) (.basic .bInt32) TYPE_STRING LABEL_OPTIONAL "" TYPE_INT32
    LABEL_OPTIONAL "" c2msg { wgen with messageIndex := 1 }
    rfl rfl rfl
    (fun l hl hne => absurd (Nat.lt_one_iff.mp hl) hne)
    (fun g2 _ _ => rfl) (by decide) (fun g2 _ _ => rfl) (by decide) (by rfl)

end Gunk
